import Mathlib

/-!
# pksafe: concurrency-safe containers (map.go, set.go, queue.go)

A shallow embedding of the container operations of package `pksafe`. The
methods are first modelled in the sequential setting where every publish on an
alert channel is paired with one receive by a subscriber; `Insert` and `Add`
are then modelled step by step for goroutines that run together (`Sys.step`).

* The table of the keyed mapping is a Go `map[K]T` with `K` of
  `constraints.Ordered`. Its keys are compared with Go's `==` (`GoKey.eq`),
  which is not reflexive on every key type: a floating-point NaN is not equal
  to itself. `KeyMap` is a table under that comparison.
* The table of the set is a Go `map[int]T`. On `int` keys `==` is plain
  equality, and that table is an association list with unique keys (`GoMap`).
* Go leaves the order of a `range` over a map unspecified, so every operation
  whose body ranges over a map takes the visiting order as an extra argument
  `picks` (see `GoMap.range`, `KeyMap.range`): each value of `picks` is one
  possible order, and every order is the result of some `picks`.
* Go's zero value of a type is `default`.
* `reflect.DeepEqual` on the element type of a set is `DeepEq.deepEqual`; like
  `==` it need not be reflexive (NaN, function values).
* Go `int` values are `Int`; the only `int`s in the code are map lengths, loop
  counters below a length, the sentinel `-1` and the limit of a queue.
-/

namespace pksafe

/-! ## Go equality -/

/-- Go's `==` on a key type `K` of `constraints.Ordered` (integers, floats,
strings): symmetric and transitive, and reflexive except on values such as a
floating-point NaN. -/
class GoKey (K : Type) where
  eq : K → K → Bool
  symm : ∀ a b, eq a b = eq b a
  trans : ∀ a b c, eq a b = true → eq b c = true → eq a c = true

/-- The function `reflect.DeepEqual` on the element type `T` of a set. -/
class DeepEq (T : Type) where
  deepEqual : T → T → Bool

/-- The values of a Go `float64` as far as comparison goes: `NaN`, which is
equal to nothing, itself included, or a number. Numbers are integers here;
nothing below computes with them. -/
inductive float64 where
  | NaN
  | num (n : Int)
deriving DecidableEq

/-- The zero value of `float64`. -/
instance instInhabitedFloat64 : Inhabited float64 := ⟨.num 0⟩

/-- The operator `==` on `float64`. -/
def float64.eq : float64 → float64 → Bool
  | .num x, .num y => decide (x = y)
  | _, _ => false

/-- Go's `==` on `int`. -/
instance instGoKeyInt : GoKey Int where
  eq a b := decide (a = b)
  symm a b := by simp [eq_comm]
  trans a b c := by
    intro h1 h2
    simp only [decide_eq_true_eq] at h1 h2 ⊢
    exact h1.trans h2

/-- Go's `==` on `float64`. -/
instance instGoKeyFloat64 : GoKey float64 where
  eq := float64.eq
  symm a b := by cases a <;> cases b <;> simp [float64.eq, eq_comm]
  trans a b c := by
    cases a <;> cases b <;> cases c <;> simp [float64.eq]
    intro h1 h2
    exact h1.trans h2

/-- The result of `reflect.DeepEqual` on two `int`s. -/
instance instDeepEqInt : DeepEq Int where
  deepEqual a b := decide (a = b)

/-- The result of `reflect.DeepEqual` on two `float64`s: that of `==`. -/
instance instDeepEqFloat64 : DeepEq float64 where
  deepEqual := float64.eq

/-! ## Go maps -/

/-- A Go `map[K]V` on a key type where `==` is plain equality, such as the
`map[int]T` of the set: a finite table with at most one value per key. -/
abbrev GoMap (K V : Type) := AList (fun _ : K => V)

/-- The builtin `len(m)`, as a Go `int`. -/
def GoMap.len {K V : Type} (m : GoMap K V) : Int := (m.entries.length : Int)

/-- Reorders a list: `picks` chooses, one position at a time, which of the
remaining elements comes next; when `picks` runs out the rest keeps its order. -/
def pickOrder {α : Type} : List Nat → List α → List α
  | _, [] => []
  | [], x :: xs => x :: xs
  | c :: cs, x :: xs =>
    match (x :: xs).get? (c % (x :: xs).length) with
    | some y => y :: pickOrder cs ((x :: xs).eraseIdx (c % (x :: xs).length))
    | none => x :: xs

/-- The entries of `m` in the order in which one `for k, v := range m` visits
them; the order is chosen by `picks`. -/
def GoMap.range {K V : Type} (picks : List Nat) (m : GoMap K V) : List (K × V) :=
  pickOrder picks (m.entries.map (fun e => (e.1, e.2)))

/-- A Go `map[K]V` on a key type of `constraints.Ordered`: the entries, no two
of them with keys that are `==`. Entries whose key is not equal to itself (NaN)
can be there any number of times. -/
structure KeyMap (K V : Type) [GoKey K] where
  entries : List (K × V)
  distinct : entries.Pairwise (fun a b => GoKey.eq a.1 b.1 = false)

/-- The builtin `make(map[K]V)`: the empty table. -/
def KeyMap.empty {K V : Type} [GoKey K] : KeyMap K V := ⟨[], List.Pairwise.nil⟩

/-- The builtin `len(m)`, as a Go `int`. -/
def KeyMap.len {K V : Type} [GoKey K] (m : KeyMap K V) : Int := (m.entries.length : Int)

/-- The value stored under a key that is `==` to `k`, if there is one. -/
def KeyMap.lookup {K V : Type} [GoKey K] (m : KeyMap K V) (k : K) : Option V :=
  (m.entries.find? (fun e => GoKey.eq e.1 k)).map Prod.snd

/-- The two-result index expression `v, ok = m[k]`: the stored value and `true`,
or the zero value and `false`. -/
def KeyMap.index {K V : Type} [GoKey K] [Inhabited V] (m : KeyMap K V) (k : K) : V × Bool :=
  match m.lookup k with
  | some v => (v, true)
  | none => (default, false)

/-- The entries after the assignment `m[k] = v`: the entry whose key is `==`
to `k` gets the value `v` (and keeps its key), or, when there is none, the
entry `(k, v)` is added. -/
def KeyMap.assign {K V : Type} [GoKey K] (l : List (K × V)) (k : K) (v : V) : List (K × V) :=
  if l.any (fun e => GoKey.eq e.1 k) then
    l.map (fun e => if GoKey.eq e.1 k then (e.1, v) else e)
  else l ++ [(k, v)]

/-- The assignment `m[k] = v`. -/
def KeyMap.store {K V : Type} [GoKey K] (m : KeyMap K V) (k : K) (v : V) : KeyMap K V :=
  ⟨KeyMap.assign m.entries k v, by
    unfold KeyMap.assign
    split
    · rw [List.pairwise_map]
      refine m.distinct.imp ?_
      intro a b hab
      have ha : (if GoKey.eq a.1 k = true then (a.1, v) else a).1 = a.1 := by split <;> rfl
      have hb : (if GoKey.eq b.1 k = true then (b.1, v) else b).1 = b.1 := by split <;> rfl
      rw [ha, hb]
      exact hab
    · rename_i hnone
      rw [List.pairwise_append]
      refine ⟨m.distinct, List.pairwise_singleton _ _, ?_⟩
      intro a ha b hb
      rw [List.mem_singleton] at hb
      subst hb
      cases hk : GoKey.eq a.1 k with
      | false => rfl
      | true => exact absurd (List.any_eq_true.mpr ⟨a, ha, hk⟩) hnone⟩

/-- The builtin `delete(m, k)`: the entry whose key is `==` to `k` is removed. -/
def KeyMap.delete {K V : Type} [GoKey K] (m : KeyMap K V) (k : K) : KeyMap K V :=
  ⟨m.entries.filter (fun e => !GoKey.eq e.1 k), m.distinct.filter _⟩

/-- The entries of `m` in the order in which one `for k, v := range m` visits
them; the order is chosen by `picks`. -/
def KeyMap.range {K V : Type} [GoKey K] (picks : List Nat) (m : KeyMap K V) : List (K × V) :=
  pickOrder picks m.entries

/-! ## Channels -/

/-- A Go channel: its capacity and the items buffered in it, oldest first. -/
structure Chan (α : Type) where
  cap : Nat
  buf : List α

/-- The builtin `make(chan T, cap)`. -/
def Chan.make {α : Type} (cap : Nat) : Chan α := ⟨cap, []⟩

/-- The builtin `len(c)`: the number of buffered items. -/
def Chan.len {α : Type} (c : Chan α) : Nat := c.buf.length

/-- The statement `if len(c) > 0 { <-c }` at the head of `Insert` and `Add`. -/
def Chan.drain {α : Type} (c : Chan α) : Chan α :=
  if c.len > 0 then ⟨c.cap, c.buf.tail⟩ else c

/-- A send `c <- x` paired with one receive by a subscriber: the subscriber
gets the oldest item, which is `x` itself when nothing is buffered. -/
def Chan.publish {α : Type} (c : Chan α) (x : α) : α × Chan α :=
  match c.buf with
  | [] => (x, c)
  | y :: rest => (y, ⟨c.cap, rest ++ [x]⟩)

/-! ## map.go -/

/-- The type `alertMapValueFunc[K, T]`: `func() (key K, value T)`. -/
abbrev alertMapValueFunc (K T : Type) := Unit → K × T

/-- The struct `safeMap[K, T]` (the mutex has no sequential content). -/
structure safeMap (K T : Type) [GoKey K] where
  data : KeyMap K T
  alertChan : Chan (alertMapValueFunc K T)

/-- The constructor `NewMap`. -/
def NewMap {K T : Type} [GoKey K] : safeMap K T :=
  ⟨KeyMap.empty, Chan.make 0⟩

/-- The method `Get`: `value, exist = m.data[key]`. -/
def safeMap.Get {K T : Type} [GoKey K] [Inhabited T] (m : safeMap K T) (key : K) : T × Bool :=
  m.data.index key

/-- The method `Has`: `_, exist = m.Get(key)`. -/
def safeMap.Has {K T : Type} [GoKey K] [Inhabited T] (m : safeMap K T) (key : K) : Bool :=
  (m.Get key).2

/-- The function literal `func() (key K, value T) { return key, value }` that
`Insert` sends. Its named results `key` and `value` are declared in the
literal's own scope, where they hide the parameters `key` and `value` of
`Insert`; they start at the zero value and `return key, value` returns them. -/
def Insert.alertFunc {K T : Type} [Inhabited K] [Inhabited T] (_key : K) (_value : T) :
    alertMapValueFunc K T :=
  fun _ =>
    let key : K := default
    let value : T := default
    (key, value)

/-- The method `Insert`, paired with one subscriber receive: the new state and
the item the subscriber receives from `Alert()`. -/
def safeMap.Insert {K T : Type} [GoKey K] [Inhabited K] [Inhabited T]
    (m : safeMap K T) (key : K) (value : T) : safeMap K T × alertMapValueFunc K T :=
  let chan := m.alertChan.drain
  let data := m.data.store key value
  let sent := chan.publish (Insert.alertFunc key value)
  (⟨data, sent.2⟩, sent.1)

/-- The method `Size`: `len(m.data)`. -/
def safeMap.Size {K T : Type} [GoKey K] (m : safeMap K T) : Int := m.data.len

/-- The method `Delete`: `delete(m.data, key)`. -/
def safeMap.Delete {K T : Type} [GoKey K] (m : safeMap K T) (key : K) : safeMap K T :=
  ⟨m.data.delete key, m.alertChan⟩

/-- The method `getKeys`: the keys of `m.data` in range order. -/
def safeMap.getKeys {K T : Type} [GoKey K] (picks : List Nat) (m : safeMap K T) : List K :=
  (m.data.range picks).foldl (fun result e => result ++ [e.1]) []

/-- The method `Clear`: `delete(m.data, key)` for every key of `getKeys`. -/
def safeMap.Clear {K T : Type} [GoKey K] (picks : List Nat) (m : safeMap K T) : safeMap K T :=
  ⟨(m.getKeys picks).foldl (fun data key => data.delete key) m.data, m.alertChan⟩

/-- Inserts the pairs of `kvs` in order, each paired with a subscriber receive. -/
def insertAll {K T : Type} [GoKey K] [Inhabited K] [Inhabited T] :
    List (K × T) → safeMap K T → safeMap K T
  | [], m => m
  | (k, v) :: rest, m => insertAll rest (m.Insert k v).1

/-! ## map.go: map objects in memory

A Go map value is a reference to a map object. `Value` returns such a
reference, so what it returns is stated over a store of map objects. -/

/-- The map objects allocated so far; a reference is a position in the list. -/
structure Store (K T : Type) [GoKey K] where
  maps : List (KeyMap K T)

/-- The table of the map object behind reference `r`. -/
def Store.read {K T : Type} [GoKey K] (σ : Store K T) (r : Nat) : KeyMap K T :=
  (σ.maps.get? r).getD KeyMap.empty

/-- The map object behind reference `r` is updated in place to table `t`. -/
def Store.write {K T : Type} [GoKey K] (σ : Store K T) (r : Nat) (t : KeyMap K T) :
    Store K T :=
  ⟨σ.maps.set r t⟩

/-- The builtin `make(map[K]T)`: a new empty map object and the reference to it. -/
def Store.makeMap {K T : Type} [GoKey K] (σ : Store K T) : Store K T × Nat :=
  (⟨σ.maps ++ [KeyMap.empty]⟩, σ.maps.length)

/-- The struct `safeMap[K, T]` as an object: its field `data` is a reference. -/
structure safeMapObj (K T : Type) where
  data : Nat
  alertChan : Chan (alertMapValueFunc K T)

/-- The state of the container: the table behind its `data` reference. -/
def safeMapObj.state {K T : Type} [GoKey K] (o : safeMapObj K T) (σ : Store K T) :
    safeMap K T :=
  ⟨σ.read o.data, o.alertChan⟩

/-- A method that mutates the table through `m.data` (`m.data[key] = value`,
`delete(m.data, key)`): the object behind the reference is updated in place. -/
def safeMapObj.mutate {K T : Type} [GoKey K] (f : safeMap K T → safeMap K T)
    (o : safeMapObj K T) (σ : Store K T) : Store K T × safeMapObj K T :=
  (σ.write o.data (f (o.state σ)).data, ⟨o.data, (f (o.state σ)).alertChan⟩)

/-- The method `Insert` on the object, paired with one subscriber receive. -/
def safeMapObj.Insert {K T : Type} [GoKey K] [Inhabited K] [Inhabited T]
    (o : safeMapObj K T) (σ : Store K T) (key : K) (value : T) : Store K T × safeMapObj K T :=
  o.mutate (fun m => (m.Insert key value).1) σ

/-- The method `Delete` on the object. -/
def safeMapObj.Delete {K T : Type} [GoKey K] (o : safeMapObj K T) (σ : Store K T)
    (key : K) : Store K T × safeMapObj K T :=
  o.mutate (fun m => m.Delete key) σ

/-- The method `Clear` on the object. -/
def safeMapObj.Clear {K T : Type} [GoKey K] (picks : List Nat) (o : safeMapObj K T)
    (σ : Store K T) : Store K T × safeMapObj K T :=
  o.mutate (fun m => m.Clear picks) σ

/-- The method `Value`: `value = make(map[K]T)`, then `value[k] = v` for every
entry of `m.data` in range order; returns the store and the reference `value`. -/
def safeMapObj.Value {K T : Type} [GoKey K] (picks : List Nat) (o : safeMapObj K T)
    (σ : Store K T) : Store K T × Nat :=
  let made := σ.makeMap
  let value := made.2
  (((o.state σ).data.range picks).foldl
      (fun st e => st.write value ((st.read value).store e.1 e.2)) made.1,
    value)

/-! ## set.go -/

/-- The struct `set[T]` (the mutex has no sequential content); slot numbers
are Go `int`s. -/
structure set (T : Type) where
  data : GoMap Int T
  alertChan : Chan T

/-- The constructor `NewSet`. -/
def NewSet {T : Type} : set T :=
  ⟨∅, Chan.make 0⟩

/-- The method `Size`: `len(s.data)`. -/
def set.Size {T : Type} (s : set T) : Int := s.data.len

/-- The method `Add`, paired with one subscriber receive: `size := s.Size()`,
then `s.data[size] = item`, then the send of `item`. Returns the new state and
the item the subscriber receives from `Alert()`. -/
def set.Add {T : Type} (s : set T) (item : T) : set T × T :=
  let chan := s.alertChan.drain
  let size := s.Size
  let data := s.data.insert size item
  let sent := chan.publish item
  (⟨data, sent.2⟩, sent.1)

/-- The search loop of `Delete`: `dataIndex` starts at `-1`; the first visited
entry with `reflect.DeepEqual(item, value)` sets it and breaks. -/
def Delete.scan {T : Type} [DeepEq T] (item : T) : List (Int × T) → Int
  | [] => -1
  | (index, value) :: rest =>
    if DeepEq.deepEqual item value then index else Delete.scan item rest

/-- The method `Delete`: the search loop over `s.data` in range order, then
`delete(s.data, dataIndex)` unless `dataIndex == -1`. -/
def set.Delete {T : Type} [DeepEq T] (picks : List Nat) (s : set T) (item : T) : set T :=
  let dataIndex := Delete.scan item (s.data.range picks)
  if dataIndex = -1 then s else ⟨s.data.erase dataIndex, s.alertChan⟩

/-- The loop `for i := 0; i < size; i++ { delete(data, i) }` of `Clear`. -/
def Clear.loop {T : Type} (size : Int) (data : GoMap Int T) : GoMap Int T :=
  (List.range size.toNat).foldl (fun d (i : Nat) => d.erase (i : Int)) data

/-- The method `Clear`: `size := s.Size()`, then the deletion loop. -/
def set.Clear {T : Type} (s : set T) : set T :=
  let size := s.Size
  ⟨Clear.loop size s.data, s.alertChan⟩

/-- The method `Has`: true when `reflect.DeepEqual(item, value)` holds for some
visited value. -/
def set.Has {T : Type} [DeepEq T] (picks : List Nat) (s : set T) (item : T) : Bool :=
  (s.data.range picks).any (fun e => DeepEq.deepEqual item e.2)

/-- The method `Value`: `size := len(s.data)`, then for `i` from `0` below
`size` the value of slot `i` is appended when the slot exists. -/
def set.Value {T : Type} (s : set T) : List T :=
  let size := s.data.len
  (List.range size.toNat).foldl
    (fun values (i : Nat) =>
      match s.data.lookup (i : Int) with
      | some value => values ++ [value]
      | none => values)
    []

/-- One call on a set (`Add`, `Delete` or `Clear`); `delete` carries the range
order of its search loop. -/
inductive SetCall (T : Type) where
  | add (item : T)
  | delete (picks : List Nat) (item : T)
  | clear

/-- The state after one call (an `Add` is paired with a subscriber receive). -/
def SetCall.apply {T : Type} [DeepEq T] (s : set T) : SetCall T → set T
  | .add item => (s.Add item).1
  | .delete picks item => s.Delete picks item
  | .clear => s.Clear

/-- The state after a sequence of calls, applied left to right. -/
def runCalls {T : Type} [DeepEq T] (calls : List (SetCall T)) (s : set T) : set T :=
  calls.foldl SetCall.apply s

/-- Adds the items of a list in order, each `Add` paired with a subscriber
receive. -/
def addAll {T : Type} : List T → set T → set T
  | [], s => s
  | item :: rest, s => addAll rest (s.Add item).1

/-! ## queue.go

The methods are modelled for a goroutine that runs alone: a channel operation
that would wait for another goroutine has no result (`none`). -/

/-- A send `c <- x` with no receiver waiting: the item is buffered when the
buffer has room, and the send blocks otherwise. -/
def Chan.send {α : Type} (c : Chan α) (x : α) : Option (Chan α) :=
  if c.buf.length < c.cap then some ⟨c.cap, c.buf ++ [x]⟩ else none

/-- A receive `<-c` with no sender waiting: the oldest buffered item, and the
receive blocks when nothing is buffered. -/
def Chan.recv {α : Type} (c : Chan α) : Option (α × Chan α) :=
  match c.buf with
  | [] => none
  | x :: rest => some (x, ⟨c.cap, rest⟩)

/-- The struct `queue[T]`. -/
structure queue (T : Type) where
  items : Chan T

/-- The constructor `NewQueue`: `make(chan T)`, a channel without buffer. -/
def NewQueue {T : Type} : queue T := ⟨Chan.make 0⟩

/-- The constructor `NewQueueWithLimit`: `make(chan T, limit)`, which panics
(no queue is returned) for a negative `limit` and for a `limit` above `maxLen`.
`maxLen` is the largest buffer length that `make` accepts; the Go runtime
derives it from the size of `T` and the largest allocation. -/
def NewQueueWithLimit {T : Type} (maxLen : Nat) (limit : Int) : Option (queue T) :=
  if 0 ≤ limit ∧ limit ≤ (maxLen : Int) then some ⟨Chan.make limit.toNat⟩ else none

/-- The method `Append`: `q.items <- item`, with no `Pop` running. -/
def queue.Append {T : Type} (q : queue T) (item : T) : Option (queue T) :=
  (q.items.send item).map (fun c => ⟨c⟩)

/-- The method `Pop`: `return <-q.items`, with no `Append` running. -/
def queue.Pop {T : Type} (q : queue T) : Option (T × queue T) :=
  (q.items.recv).map (fun r => (r.1, ⟨r.2⟩))

/-- The method `Append` running together with one `Pop`: the `Pop` returns the
oldest item, which is `item` itself when nothing is buffered. -/
def queue.AppendWithPop {T : Type} (q : queue T) (item : T) : T × queue T :=
  ((q.items.publish item).1, ⟨(q.items.publish item).2⟩)

/-- `Append` of every item of a list in order, with no `Pop` running. -/
def appendAll {T : Type} : List T → queue T → Option (queue T)
  | [], q => some q
  | item :: rest, q =>
    match q.Append item with
    | some q1 => appendAll rest q1
    | none => none

/-- `Pop` called `k` times with no `Append` running: the items returned, in
order, and the queue left. -/
def popN {T : Type} : Nat → queue T → Option (List T × queue T)
  | 0, q => some ([], q)
  | k + 1, q =>
    match q.Pop with
    | some (x, q1) =>
      match popN k q1 with
      | some (xs, q2) => some (x :: xs, q2)
      | none => none
    | none => none

/-! ## Goroutines, the mutex and the alert channel

`Insert` and `Add` running together with other goroutines. A method body is
the list of its atomic steps; a schedule names, step by step, the goroutine
that runs next, and a goroutine whose next step has to wait does nothing.
The alert channel has no buffer (`NewMap` and `NewSet` make it so): `len` of
it is always 0 and a send completes only together with a receive. -/

/-- The state of a `sync.RWMutex`: the goroutine that holds it for writing, if
any, and the number of read holders. -/
structure RWMutex where
  writer : Option Nat
  readers : Nat

/-- One atomic step of a method body over a table of type `D` and alert items
of type `A`. `act` is a step on the table and on the goroutine's local `int`
variable. -/
inductive Instr (D A : Type) where
  | drain
  | rlock
  | runlock
  | lock
  | unlock
  | act (f : D → Int → D × Int)
  | send (payload : A)

/-- A goroutine inside a method call: the steps it still has to run and its
local variable. The call has returned when no step is left. -/
structure Goroutine (D A : Type) where
  prog : List (Instr D A)
  loc : Int

/-- A container shared by goroutines: the table, the mutex, the goroutines, the
number of receives on `Alert()` that subscribers are ready to perform, and the
items received so far. -/
structure Sys (D A : Type) where
  data : D
  mutex : RWMutex
  threads : List (Goroutine D A)
  recvs : Nat
  received : List A

/-- Goroutine `t` runs its next step, or `none` when it has to wait (or has
returned):
* `drain` is `if len(alertChan) > 0 { <-alertChan }` on a channel without
  buffer, which does nothing;
* `RLock` waits while a writer holds the mutex, `Lock` waits while anyone does;
* `RUnlock` and `Unlock` release what was acquired;
* a send waits until a subscriber is ready to receive.

Go's mutex also holds back new `RLock`s while a `Lock` is waiting; that is left
out, so every schedule of the Go program is a schedule here. -/
def Sys.step {D A : Type} (sys : Sys D A) (t : Nat) : Option (Sys D A) :=
  match sys.threads.get? t with
  | none => none
  | some g =>
    match g.prog with
    | [] => none
    | .drain :: rest =>
      some ⟨sys.data, sys.mutex, sys.threads.set t ⟨rest, g.loc⟩, sys.recvs, sys.received⟩
    | .rlock :: rest =>
      if sys.mutex.writer = none then
        some ⟨sys.data, ⟨none, sys.mutex.readers + 1⟩, sys.threads.set t ⟨rest, g.loc⟩,
          sys.recvs, sys.received⟩
      else none
    | .runlock :: rest =>
      if 0 < sys.mutex.readers then
        some ⟨sys.data, ⟨sys.mutex.writer, sys.mutex.readers - 1⟩,
          sys.threads.set t ⟨rest, g.loc⟩, sys.recvs, sys.received⟩
      else none
    | .lock :: rest =>
      if sys.mutex.writer = none ∧ sys.mutex.readers = 0 then
        some ⟨sys.data, ⟨some t, 0⟩, sys.threads.set t ⟨rest, g.loc⟩, sys.recvs,
          sys.received⟩
      else none
    | .unlock :: rest =>
      if sys.mutex.writer = some t then
        some ⟨sys.data, ⟨none, sys.mutex.readers⟩, sys.threads.set t ⟨rest, g.loc⟩,
          sys.recvs, sys.received⟩
      else none
    | .act f :: rest =>
      some ⟨(f sys.data g.loc).1, sys.mutex, sys.threads.set t ⟨rest, (f sys.data g.loc).2⟩,
        sys.recvs, sys.received⟩
    | .send payload :: rest =>
      if 0 < sys.recvs then
        some ⟨sys.data, sys.mutex, sys.threads.set t ⟨rest, g.loc⟩, sys.recvs - 1,
          sys.received ++ [payload]⟩
      else none

/-- The state after a schedule: at each position the named goroutine runs its
next step if it can, and nothing happens if it has to wait. -/
def Sys.run {D A : Type} : List Nat → Sys D A → Sys D A
  | [], sys => sys
  | t :: rest, sys => Sys.run rest ((sys.step t).getD sys)

/-- The steps goroutine `t` still has to run. -/
def Sys.progOf {D A : Type} (sys : Sys D A) (t : Nat) : List (Instr D A) :=
  match sys.threads.get? t with
  | some g => g.prog
  | none => []

/-- Whether the call of goroutine `t` has returned. -/
def Sys.returned {D A : Type} (sys : Sys D A) (t : Nat) : Bool :=
  match sys.threads.get? t with
  | some g => g.prog.isEmpty
  | none => false

/-- Whether a step acquires the mutex (`Lock` or `RLock`). -/
def Instr.isAcquire {D A : Type} : Instr D A → Bool
  | .lock => true
  | .rlock => true
  | _ => false

/-- Whether the steps reach a send before any `Unlock`. -/
def sendBeforeUnlock {D A : Type} : List (Instr D A) → Bool
  | [] => false
  | .send _ :: _ => true
  | .unlock :: _ => false
  | _ :: rest => sendBeforeUnlock rest

/-- The item of the first send among the steps, if there is one. -/
def firstSend {D A : Type} : List (Instr D A) → Option A
  | [] => none
  | .send payload :: _ => some payload
  | _ :: rest => firstSend rest

/-- The body of `safeMap.Insert`: the drain test, `m.mutex.Lock()`,
`m.data[key] = value`, the send of the function literal, and the deferred
`m.mutex.Unlock()`. -/
def safeMap.InsertProg {K T : Type} [GoKey K] [Inhabited K] [Inhabited T]
    (key : K) (value : T) : List (Instr (KeyMap K T) (alertMapValueFunc K T)) :=
  [.drain,
   .lock,
   .act (fun data loc => (data.store key value, loc)),
   .send (Insert.alertFunc key value),
   .unlock]

/-- The body of `Alert` (of the map and of the set alike): `return
m.alertChan`, one step that takes no lock and leaves the table as it is. -/
def AlertProg {D A : Type} : List (Instr D A) :=
  [.act (fun data loc => (data, loc))]

/-- The body of `set.Add`: the drain test, `size := s.Size()` (which is
`RLock`, `len(s.data)`, `RUnlock`), `s.mutex.Lock()`, `s.data[size] = item`,
the send of `item`, and the deferred `s.mutex.Unlock()`. -/
def set.AddProg {T : Type} (item : T) : List (Instr (GoMap Int T) T) :=
  [.drain,
   .rlock,
   .act (fun data _ => (data, data.len)),
   .runlock,
   .lock,
   .act (fun data size => (data.insert size item, size)),
   .send item,
   .unlock]

/-- A map with table `table` and a free mutex on which goroutine 0 calls
`Insert(key, value)` next to the goroutines `others`, with `recvs` receives on
`Alert()` ready. -/
def safeMap.InsertSys {K T : Type} [GoKey K] [Inhabited K] [Inhabited T]
    (key : K) (value : T) (table : KeyMap K T)
    (others : List (Goroutine (KeyMap K T) (alertMapValueFunc K T))) (recvs : Nat) :
    Sys (KeyMap K T) (alertMapValueFunc K T) :=
  ⟨table, ⟨none, 0⟩, ⟨safeMap.InsertProg key value, 0⟩ :: others, recvs, []⟩

/-- A set with table `table` and a free mutex on which goroutine 0 calls
`Add(item)` next to the goroutines `others`, with `recvs` receives on `Alert()`
ready. -/
def set.AddSys {T : Type} (item : T) (table : GoMap Int T)
    (others : List (Goroutine (GoMap Int T) T)) (recvs : Nat) : Sys (GoMap Int T) T :=
  ⟨table, ⟨none, 0⟩, ⟨set.AddProg item, 0⟩ :: others, recvs, []⟩

/-! ## Range order -/

theorem perm_cons_eraseIdx {α : Type} (l : List α) (i : Nat) (y : α)
    (h : l.get? i = some y) : l.Perm (y :: l.eraseIdx i) := by
  induction l generalizing i with
  | nil => simp at h
  | cons a t ih =>
    cases i with
    | zero =>
      simp at h
      subst h
      simp
    | succ j =>
      have ht : t.get? j = some y := by simpa using h
      have h1 : (a :: t).Perm (a :: y :: t.eraseIdx j) := (ih j ht).cons a
      exact h1.trans (List.Perm.swap y a _)

theorem pickOrder_perm {α : Type} (picks : List Nat) (l : List α) :
    (pickOrder picks l).Perm l := by
  induction picks generalizing l with
  | nil => cases l <;> simp [pickOrder]
  | cons c cs ih =>
    cases l with
    | nil => simp [pickOrder]
    | cons x xs =>
      rw [pickOrder]
      cases hy : (x :: xs).get? (c % (x :: xs).length) with
      | none => simp
      | some y =>
        simp only []
        exact ((ih _).cons y).trans (perm_cons_eraseIdx _ _ y hy).symm

/-- Every order of the list is the result of some `picks`. -/
theorem pickOrder_surjective {α : Type} (l' l : List α) (h : l'.Perm l) :
    ∃ picks, pickOrder picks l = l' := by
  induction l' generalizing l with
  | nil =>
    have hl : l = [] := h.symm.eq_nil
    exact ⟨[], by rw [hl]; rfl⟩
  | cons y t ih =>
    have hy : y ∈ l := h.subset (List.mem_cons_self y t)
    obtain ⟨i, hi⟩ := List.get?_of_mem hy
    have ht : t.Perm (l.eraseIdx i) :=
      List.Perm.cons_inv (h.trans (perm_cons_eraseIdx l i y hi))
    obtain ⟨cs, hcs⟩ := ih _ ht
    refine ⟨i :: cs, ?_⟩
    cases l with
    | nil => simp at hy
    | cons x xs =>
      have hlt : i < (x :: xs).length := (List.get?_eq_some.mp hi).1
      rw [pickOrder, Nat.mod_eq_of_lt hlt, hi]
      simp only []
      rw [hcs]

/-- Any element of the list can be visited first. -/
theorem pickOrder_single {α : Type} (l : List α) (i : Nat) (y : α)
    (h : l.get? i = some y) : pickOrder [i] l = y :: l.eraseIdx i := by
  cases l with
  | nil => simp at h
  | cons x xs =>
    have hi : i < (x :: xs).length := by
      rcases List.get?_eq_some.mp h with ⟨hlt, _⟩
      exact hlt
    rw [pickOrder, Nat.mod_eq_of_lt hi, h]
    cases hl : (x :: xs).eraseIdx i <;> simp [pickOrder]

theorem GoMap.mem_range {K V : Type} [DecidableEq K] (picks : List Nat) (m : GoMap K V)
    (k : K) (v : V) : (k, v) ∈ m.range picks ↔ m.lookup k = some v := by
  unfold GoMap.range
  rw [(pickOrder_perm picks _).mem_iff, List.mem_map]
  constructor
  · rintro ⟨⟨a, b⟩, hmem, heq⟩
    simp only [Prod.mk.injEq] at heq
    obtain ⟨rfl, rfl⟩ := heq
    exact AList.mem_lookup_iff.mpr hmem
  · intro h
    exact ⟨⟨k, v⟩, AList.mem_lookup_iff.mp h, rfl⟩

theorem KeyMap.range_perm {K V : Type} [GoKey K] (picks : List Nat) (m : KeyMap K V) :
    (m.range picks).Perm m.entries :=
  pickOrder_perm picks m.entries

/-! ## Tables under Go's key comparison -/

theorem GoKey.eq_of_eq_right {K : Type} [GoKey K] (a b c : K) (h1 : GoKey.eq a c = true)
    (h2 : GoKey.eq b c = true) : GoKey.eq a b = true :=
  GoKey.trans a c b h1 (by rw [GoKey.symm]; exact h2)

theorem GoKey.eq_self_of_eq {K : Type} [GoKey K] (a b : K) (h : GoKey.eq a b = true) :
    GoKey.eq a a = true :=
  GoKey.eq_of_eq_right a a b h h

theorem KeyMap.ext {K V : Type} [GoKey K] (m m' : KeyMap K V) (h : m.entries = m'.entries) :
    m = m' := by
  cases m
  cases m'
  simp only at h
  subst h
  rfl

theorem KeyMap.lookup_eq_none_iff {K V : Type} [GoKey K] (m : KeyMap K V) (k : K) :
    m.lookup k = none ↔ ∀ e ∈ m.entries, GoKey.eq e.1 k = false := by
  unfold KeyMap.lookup
  rw [Option.map_eq_none', List.find?_eq_none]
  constructor
  · intro h e he
    cases hk : GoKey.eq e.1 k with
    | false => rfl
    | true => exact absurd hk (h e he)
  · intro h e he hk
    rw [h e he] at hk
    cases hk

theorem KeyMap.mem_of_lookup {K V : Type} [GoKey K] (m : KeyMap K V) (k : K) (v : V)
    (h : m.lookup k = some v) : ∃ k0, (k0, v) ∈ m.entries ∧ GoKey.eq k0 k = true := by
  unfold KeyMap.lookup at h
  rw [Option.map_eq_some'] at h
  obtain ⟨⟨k0, v0⟩, hfind, hv⟩ := h
  simp only at hv
  subst hv
  have hp := List.find?_some hfind
  exact ⟨k0, List.mem_of_find?_eq_some hfind, hp⟩

theorem KeyMap.find_of_mem {K V : Type} [GoKey K] (l : List (K × V))
    (hd : l.Pairwise (fun a b => GoKey.eq a.1 b.1 = false)) (k0 k : K) (v : V)
    (hmem : (k0, v) ∈ l) (hk : GoKey.eq k0 k = true) :
    l.find? (fun e => GoKey.eq e.1 k) = some (k0, v) := by
  induction l with
  | nil => simp at hmem
  | cons a t ih =>
    rw [List.pairwise_cons] at hd
    rcases List.mem_cons.mp hmem with heq | htail
    · subst heq
      simp [List.find?, hk]
    · have hne : GoKey.eq a.1 k = false := by
        cases ha : GoKey.eq a.1 k with
        | false => rfl
        | true =>
          have h1 := GoKey.eq_of_eq_right a.1 k0 k ha hk
          rw [hd.1 (k0, v) htail] at h1
          cases h1
      simp only [List.find?, hne]
      exact ih hd.2 htail

theorem KeyMap.lookup_of_mem {K V : Type} [GoKey K] (m : KeyMap K V) (k0 k : K) (v : V)
    (hmem : (k0, v) ∈ m.entries) (hk : GoKey.eq k0 k = true) : m.lookup k = some v := by
  unfold KeyMap.lookup
  rw [KeyMap.find_of_mem m.entries m.distinct k0 k v hmem hk]
  rfl

theorem KeyMap.index_of_lookup_some {K V : Type} [GoKey K] [Inhabited V] (m : KeyMap K V)
    (k : K) (v : V) (h : m.lookup k = some v) : m.index k = (v, true) := by
  simp [KeyMap.index, h]

theorem KeyMap.index_of_lookup_none {K V : Type} [GoKey K] [Inhabited V] (m : KeyMap K V)
    (k : K) (h : m.lookup k = none) : m.index k = (default, false) := by
  simp [KeyMap.index, h]

/-- After `m[k0] = v`, every key that is `==` to `k0` reads `v`. -/
theorem KeyMap.lookup_store_of_eq {K V : Type} [GoKey K] (m : KeyMap K V) (k0 k : K) (v : V)
    (h : GoKey.eq k0 k = true) : (m.store k0 v).lookup k = some v := by
  by_cases hany : m.entries.any (fun e => GoKey.eq e.1 k0) = true
  · obtain ⟨e, he, hek⟩ := List.any_eq_true.mp hany
    apply KeyMap.lookup_of_mem (m.store k0 v) e.1 k v
    · show (e.1, v) ∈ KeyMap.assign m.entries k0 v
      unfold KeyMap.assign
      rw [if_pos hany, List.mem_map]
      exact ⟨e, he, by rw [if_pos hek]⟩
    · exact GoKey.trans e.1 k0 k hek h
  · apply KeyMap.lookup_of_mem (m.store k0 v) k0 k v
    · show (k0, v) ∈ KeyMap.assign m.entries k0 v
      unfold KeyMap.assign
      rw [if_neg hany]
      simp
    · exact h

/-- The assignment `m[k] = v` leaves every key that is not `==` to `k` as it
was. -/
theorem KeyMap.lookup_store_ne {K V : Type} [GoKey K] (m : KeyMap K V) (k k' : K) (v : V)
    (h : GoKey.eq k' k = false) : (m.store k v).lookup k' = m.lookup k' := by
  have hkey : ∀ e : K × V, (if GoKey.eq e.1 k = true then (e.1, v) else e).1 = e.1 := by
    intro e; split <;> rfl
  cases hl : m.lookup k' with
  | none =>
    rw [KeyMap.lookup_eq_none_iff] at hl ⊢
    intro e he
    have he2 : e ∈ KeyMap.assign m.entries k v := he
    unfold KeyMap.assign at he2
    split at he2
    · rw [List.mem_map] at he2
      obtain ⟨e0, he0, rfl⟩ := he2
      rw [hkey]
      exact hl e0 he0
    · rcases List.mem_append.mp he2 with hin | hnew
      · exact hl e hin
      · rw [List.mem_singleton] at hnew
        subst hnew
        rw [GoKey.symm]
        exact h
  | some v' =>
    obtain ⟨k0, hmem, hk0⟩ := KeyMap.mem_of_lookup m k' v' hl
    have hne : GoKey.eq k0 k = false := by
      cases hc : GoKey.eq k0 k with
      | false => rfl
      | true =>
        have h1 : GoKey.eq k' k = true :=
          GoKey.trans k' k0 k (by rw [GoKey.symm]; exact hk0) hc
        rw [h] at h1
        cases h1
    apply KeyMap.lookup_of_mem (m.store k v) k0 k' v' _ hk0
    show (k0, v') ∈ KeyMap.assign m.entries k v
    unfold KeyMap.assign
    split
    · rw [List.mem_map]
      exact ⟨(k0, v'), hmem, by simp [hne]⟩
    · exact List.mem_append_left _ hmem

theorem KeyMap.lookup_delete_self {K V : Type} [GoKey K] (m : KeyMap K V) (k : K) :
    (m.delete k).lookup k = none := by
  rw [KeyMap.lookup_eq_none_iff]
  intro e he
  have he2 : e ∈ m.entries.filter (fun e => !GoKey.eq e.1 k) := he
  rw [List.mem_filter] at he2
  simpa using he2.2

theorem KeyMap.lookup_delete_ne {K V : Type} [GoKey K] (m : KeyMap K V) (k k' : K)
    (h : GoKey.eq k' k = false) : (m.delete k).lookup k' = m.lookup k' := by
  cases hl : m.lookup k' with
  | none =>
    rw [KeyMap.lookup_eq_none_iff] at hl ⊢
    intro e he
    have he2 : e ∈ m.entries.filter (fun e => !GoKey.eq e.1 k) := he
    exact hl e (List.mem_filter.mp he2).1
  | some v' =>
    obtain ⟨k0, hmem, hk0⟩ := KeyMap.mem_of_lookup m k' v' hl
    have hne : GoKey.eq k0 k = false := by
      cases hc : GoKey.eq k0 k with
      | false => rfl
      | true =>
        have h1 : GoKey.eq k' k = true :=
          GoKey.trans k' k0 k (by rw [GoKey.symm]; exact hk0) hc
        rw [h] at h1
        cases h1
    apply KeyMap.lookup_of_mem (m.delete k) k0 k' v' _ hk0
    show (k0, v') ∈ m.entries.filter (fun e => !GoKey.eq e.1 k)
    rw [List.mem_filter]
    exact ⟨hmem, by simp [hne]⟩

theorem KeyMap.delete_delete {K V : Type} [GoKey K] (m : KeyMap K V) (k : K) :
    (m.delete k).delete k = m.delete k := by
  apply KeyMap.ext
  show (m.entries.filter (fun e => !GoKey.eq e.1 k)).filter (fun e => !GoKey.eq e.1 k)
    = m.entries.filter (fun e => !GoKey.eq e.1 k)
  rw [List.filter_filter]
  simp

theorem KeyMap.lookup_isSome_iff {K V : Type} [GoKey K] (m : KeyMap K V) (k : K) :
    (m.lookup k).isSome = true ↔ m.entries.any (fun e => GoKey.eq e.1 k) = true := by
  constructor
  · intro h
    cases hl : m.lookup k with
    | none => rw [hl] at h; cases h
    | some v =>
      obtain ⟨k0, hmem, hk0⟩ := KeyMap.mem_of_lookup m k v hl
      exact List.any_eq_true.mpr ⟨(k0, v), hmem, hk0⟩
  · intro h
    obtain ⟨e, he, hek⟩ := List.any_eq_true.mp h
    rw [KeyMap.lookup_of_mem m e.1 k e.2 he hek]
    rfl

theorem KeyMap.len_store {K V : Type} [GoKey K] (m : KeyMap K V) (k : K) (v : V) :
    (m.store k v).len = if (m.lookup k).isSome = true then m.len else m.len + 1 := by
  show ((KeyMap.assign m.entries k v).length : Int) = _
  unfold KeyMap.assign
  by_cases hany : m.entries.any (fun e => GoKey.eq e.1 k) = true
  · rw [if_pos hany, if_pos ((KeyMap.lookup_isSome_iff m k).mpr hany), List.length_map]
    rfl
  · rw [if_neg hany, if_neg (fun h => hany ((KeyMap.lookup_isSome_iff m k).mp h)),
      List.length_append]
    simp [KeyMap.len]

/-- Deleting a list of keys one after the other leaves the entries whose key is
`==` to none of them. -/
theorem KeyMap.foldl_delete_entries {K V : Type} [GoKey K] (keys : List K) (m : KeyMap K V) :
    (keys.foldl (fun data key => data.delete key) m).entries
      = m.entries.filter (fun e => !keys.any (fun key => GoKey.eq e.1 key)) := by
  induction keys generalizing m with
  | nil => simp
  | cons a rest ih =>
    rw [List.foldl_cons, ih]
    show (m.entries.filter (fun e => !GoKey.eq e.1 a)).filter _ = _
    rw [List.filter_filter]
    apply List.filter_congr
    intro e _
    simp [List.any_cons, Bool.and_comm]

theorem insertAll_lookup_of_no_match {K T : Type} [GoKey K] [Inhabited K] [Inhabited T]
    (kvs : List (K × T)) (m : safeMap K T) (k : K)
    (hk : ∀ p ∈ kvs, GoKey.eq k p.1 = false) :
    (insertAll kvs m).data.lookup k = m.data.lookup k := by
  induction kvs generalizing m with
  | nil => rfl
  | cons p rest ih =>
    obtain ⟨a, b⟩ := p
    rw [insertAll, ih _ (fun p hp => hk p (List.mem_cons_of_mem _ hp))]
    exact KeyMap.lookup_store_ne m.data a k b (hk (a, b) (List.mem_cons_self _ _))

theorem insertAll_lookup_of_mem {K T : Type} [GoKey K] [Inhabited K] [Inhabited T]
    (kvs : List (K × T)) (m : safeMap K T)
    (hkeys : kvs.Pairwise (fun a b => GoKey.eq a.1 b.1 = false))
    (k : K) (v : T) (hmem : (k, v) ∈ kvs) (hself : GoKey.eq k k = true) :
    (insertAll kvs m).data.lookup k = some v := by
  induction kvs generalizing m with
  | nil => simp at hmem
  | cons p rest ih =>
    obtain ⟨a, b⟩ := p
    rw [List.pairwise_cons] at hkeys
    rw [insertAll]
    rcases List.mem_cons.mp hmem with heq | hrest
    · simp only [Prod.mk.injEq] at heq
      obtain ⟨rfl, rfl⟩ := heq
      rw [insertAll_lookup_of_no_match _ _ _ (fun p hp => hkeys.1 p hp)]
      exact KeyMap.lookup_store_of_eq m.data k k v hself
    · exact ih _ hkeys.2 hrest

/-- C1 (counterexample): on a `float64`-keyed map, after `Insert(NaN, 1)` into
a fresh map `Get(NaN)` returns `(0, false)`, not `(1, true)`. -/
theorem Get_after_Insert_NaN :
    (insertAll [(float64.NaN, (1 : Int))] NewMap).Get float64.NaN = (0, false) := by
  decide

/-- C1 (amended): for every list of (key, value) pairs whose keys are pairwise
distinct and each equal to itself (`k == k`), inserted into a fresh map from
`NewMap` (each `Insert` paired with a subscriber receive), `Get(k)` returns
`(v, true)` for every inserted pair `(k, v)`, and `Get(k')` returns
`exist = false` for every key that was never inserted. -/
theorem insertAll_get {K T : Type} [GoKey K] [Inhabited K] [Inhabited T]
    (kvs : List (K × T)) (hkeys : kvs.Pairwise (fun a b => GoKey.eq a.1 b.1 = false))
    (hself : ∀ p ∈ kvs, GoKey.eq p.1 p.1 = true) :
    (∀ p ∈ kvs, (insertAll kvs NewMap).Get p.1 = (p.2, true)) ∧
    (∀ k, (∀ p ∈ kvs, GoKey.eq k p.1 = false) →
      ((insertAll kvs NewMap).Get k).2 = false) := by
  constructor
  · rintro ⟨k, v⟩ hp
    exact KeyMap.index_of_lookup_some _ k v
      (insertAll_lookup_of_mem kvs NewMap hkeys k v hp (hself (k, v) hp))
  · intro k hk
    have h : (insertAll kvs (NewMap : safeMap K T)).data.lookup k = none := by
      rw [insertAll_lookup_of_no_match kvs NewMap k hk]
      rfl
    unfold safeMap.Get
    rw [KeyMap.index_of_lookup_none _ k h]

/-- Witness of C1 (amended) at the pairs `(1, 10), (2, 20)`. -/
theorem insertAll_get_witness :
    ([((1 : Int), (10 : Int)), (2, 20)].Pairwise (fun a b => GoKey.eq a.1 b.1 = false) ∧
      ∀ p ∈ [((1 : Int), (10 : Int)), (2, 20)], GoKey.eq p.1 p.1 = true) ∧
    ((∀ p ∈ [((1 : Int), (10 : Int)), (2, 20)],
        (insertAll [((1 : Int), (10 : Int)), (2, 20)] NewMap).Get p.1 = (p.2, true)) ∧
     (∀ k, (∀ p ∈ [((1 : Int), (10 : Int)), (2, 20)], GoKey.eq k p.1 = false) →
        ((insertAll [((1 : Int), (10 : Int)), (2, 20)] NewMap).Get k).2 = false)) :=
  ⟨⟨by decide, by decide⟩,
    insertAll_get [((1 : Int), (10 : Int)), (2, 20)] (by decide) (by decide)⟩

/-- C2 (evaluation of the code): the function that `Insert(1, 2)` publishes on
the alert channel of a fresh map returns `(0, 0)`, the zero values of its own
named results, and not the inserted pair `(1, 2)`. -/
theorem Insert_alert_returns_zero_values :
    ((NewMap : safeMap Int Int).Insert 1 2).2 () = (0, 0) ∧
    ((NewMap : safeMap Int Int).Insert 1 2).2 () ≠ (1, 2) := by
  decide

/-! ## Keyed mapping: Delete and Clear -/

/-- C6: for every map state and key `k`, after `Delete(k)` `Has(k)` is false,
and the state after `Delete(k); Delete(k)` equals the state after a single
`Delete(k)`. -/
theorem Delete_has_false_idempotent {K T : Type} [GoKey K] [Inhabited T]
    (m : safeMap K T) (k : K) :
    (m.Delete k).Has k = false ∧ (m.Delete k).Delete k = m.Delete k := by
  constructor
  · unfold safeMap.Has safeMap.Get safeMap.Delete
    rw [KeyMap.index_of_lookup_none _ k (KeyMap.lookup_delete_self m.data k)]
  · unfold safeMap.Delete
    simp only [KeyMap.delete_delete]

theorem getKeys_eq {K T : Type} [GoKey K] (picks : List Nat) (m : safeMap K T) :
    m.getKeys picks = (m.data.range picks).map Prod.fst := by
  unfold safeMap.getKeys
  generalize m.data.range picks = l
  have h : ∀ (acc : List K), l.foldl (fun result e => result ++ [e.1]) acc
      = acc ++ l.map Prod.fst := by
    induction l with
    | nil => intro acc; simp
    | cons a t ih => intro acc; simp [ih]
  simpa using h []

/-- `Clear` deletes every entry whose key is equal to itself and leaves the
others. -/
theorem Clear_entries {K T : Type} [GoKey K] (picks : List Nat) (m : safeMap K T) :
    (m.Clear picks).data.entries = m.data.entries.filter (fun e => !GoKey.eq e.1 e.1) := by
  show ((m.getKeys picks).foldl (fun data key => data.delete key) m.data).entries = _
  rw [KeyMap.foldl_delete_entries, getKeys_eq]
  apply List.filter_congr
  intro e he
  have hmem : e.1 ∈ (m.data.range picks).map Prod.fst :=
    List.mem_map.mpr ⟨e, (KeyMap.range_perm picks m.data).mem_iff.mpr he, rfl⟩
  cases hs : GoKey.eq e.1 e.1 with
  | true =>
    have hany : ((m.data.range picks).map Prod.fst).any (fun key => GoKey.eq e.1 key) = true :=
      List.any_eq_true.mpr ⟨e.1, hmem, hs⟩
    rw [hany]
  | false =>
    cases hany : ((m.data.range picks).map Prod.fst).any (fun key => GoKey.eq e.1 key) with
    | false => rfl
    | true =>
      obtain ⟨key, _, hkey⟩ := List.any_eq_true.mp hany
      have := GoKey.eq_self_of_eq e.1 key hkey
      rw [hs] at this
      cases this

/-- C7 (counterexample): on a `float64`-keyed map that holds two entries with
key NaN, `Clear()` followed by `Size()` yields 2: `delete(m.data, NaN)` removes
nothing. -/
theorem Clear_keeps_NaN_keys :
    ((((NewMap : safeMap float64 Int).Insert float64.NaN 1).1.Insert float64.NaN 2).1.Size
      = 2) ∧
    (((((NewMap : safeMap float64 Int).Insert float64.NaN 1).1.Insert float64.NaN 2).1.Clear
      []).Size = 2) := by
  decide

/-- C7 (amended): for every map state, `Clear()` followed by `Size()` yields
the number of entries whose key is not equal to itself, which is 0 when every
key of the table satisfies `k == k`; and `Has(k)` is false for every key `k`. -/
theorem Clear_size_has_false {K T : Type} [GoKey K] [Inhabited T]
    (picks : List Nat) (m : safeMap K T) :
    (m.Clear picks).Size
      = ((m.data.entries.filter (fun e => !GoKey.eq e.1 e.1)).length : Int) ∧
    ((∀ e ∈ m.data.entries, GoKey.eq e.1 e.1 = true) → (m.Clear picks).Size = 0) ∧
    (∀ k, (m.Clear picks).Has k = false) := by
  have hent := Clear_entries picks m
  have hsize : (m.Clear picks).Size
      = ((m.data.entries.filter (fun e => !GoKey.eq e.1 e.1)).length : Int) := by
    show ((m.Clear picks).data.entries.length : Int) = _
    rw [hent]
  refine ⟨hsize, ?_, ?_⟩
  · intro hself
    rw [hsize]
    have hnil : m.data.entries.filter (fun e => !GoKey.eq e.1 e.1) = [] := by
      rw [List.filter_eq_nil_iff]
      intro e he
      simp [hself e he]
    rw [hnil]
    rfl
  · intro k
    have hnone : (m.Clear picks).data.lookup k = none := by
      rw [KeyMap.lookup_eq_none_iff, hent]
      intro e he
      rw [List.mem_filter] at he
      cases hk : GoKey.eq e.1 k with
      | false => rfl
      | true =>
        have := GoKey.eq_self_of_eq e.1 k hk
        simp [this] at he
    unfold safeMap.Has safeMap.Get
    rw [KeyMap.index_of_lookup_none _ k hnone]

/-! ## Keyed mapping: the frame of Insert -/

theorem safeMap.Has_eq_lookup_isSome {K T : Type} [GoKey K] [Inhabited T] (m : safeMap K T)
    (k : K) : m.Has k = (m.data.lookup k).isSome := by
  unfold safeMap.Has safeMap.Get KeyMap.index
  cases m.data.lookup k <;> rfl

/-- C19 (counterexample): on a fresh `float64`-keyed map, after
`Insert(NaN, 1)` `Size()` is 1 but `Get(NaN)` returns `(0, false)`. -/
theorem Insert_NaN_not_found :
    ((NewMap : safeMap float64 Int).Insert float64.NaN 1).1.Size = 1 ∧
    ((NewMap : safeMap float64 Int).Insert float64.NaN 1).1.Get float64.NaN = (0, false) := by
  decide

/-- C19 (amended): for every map state, key `k` and value `v`, after
`Insert(k, v)` `Get(k)` returns `(v, true)` when `k == k`, whether or not `k`
held a value before; `Get(k')` is unchanged for every key with `k' != k`; and
`Size()` is unchanged when `k` was present and one larger when it was absent. -/
theorem Insert_frame {K T : Type} [GoKey K] [Inhabited K] [Inhabited T]
    (m : safeMap K T) (k : K) (v : T) :
    (GoKey.eq k k = true → (m.Insert k v).1.Get k = (v, true)) ∧
    (∀ k', GoKey.eq k' k = false → (m.Insert k v).1.Get k' = m.Get k') ∧
    (m.Insert k v).1.Size = if m.Has k = true then m.Size else m.Size + 1 := by
  refine ⟨?_, ?_, ?_⟩
  · intro hk
    exact KeyMap.index_of_lookup_some _ k v (KeyMap.lookup_store_of_eq m.data k k v hk)
  · intro k' hk
    show KeyMap.index (m.data.store k v) k' = KeyMap.index m.data k'
    unfold KeyMap.index
    rw [KeyMap.lookup_store_ne m.data k k' v hk]
  · show (m.data.store k v).len = _
    rw [KeyMap.len_store, safeMap.Has_eq_lookup_isSome]
    rfl

/-! ## Deduplicating collection: the search loop of Delete -/

theorem Delete.scan_spec {T : Type} [DeepEq T] (item : T) (l : List (Int × T)) :
    (Delete.scan item l = -1 ∧ ∀ e ∈ l, DeepEq.deepEqual item e.2 = false) ∨
    (∃ pre value post, l = pre ++ (Delete.scan item l, value) :: post ∧
      DeepEq.deepEqual item value = true ∧
      ∀ e ∈ pre, DeepEq.deepEqual item e.2 = false) := by
  induction l with
  | nil => left; simp [Delete.scan]
  | cons a t ih =>
    obtain ⟨index, value⟩ := a
    cases hv : DeepEq.deepEqual item value with
    | true =>
      right
      refine ⟨[], value, t, ?_, hv, by simp⟩
      simp [Delete.scan, hv]
    | false =>
      have hs : Delete.scan item ((index, value) :: t) = Delete.scan item t := by
        simp [Delete.scan, hv]
      rw [hs]
      rcases ih with ⟨h1, h2⟩ | ⟨pre, value', post, h1, h2, h3⟩
      · left
        refine ⟨h1, ?_⟩
        intro e he
        rcases List.mem_cons.mp he with rfl | he
        · exact hv
        · exact h2 e he
      · right
        refine ⟨(index, value) :: pre, value', post, ?_, h2, ?_⟩
        · rw [List.cons_append, ← h1]
        · intro e he
          rcases List.mem_cons.mp he with rfl | he
          · exact hv
          · exact h3 e he

theorem Delete.scan_cons_match {T : Type} [DeepEq T] (item value : T) (j : Int)
    (rest : List (Int × T)) (h : DeepEq.deepEqual item value = true) :
    Delete.scan item ((j, value) :: rest) = j := by
  simp [Delete.scan, h]

/-- When no live slot holds a value deep-equal to the item, `Delete` leaves the
state as it is. -/
theorem Delete_of_absent {T : Type} [DeepEq T] (picks : List Nat) (s : set T) (item : T)
    (habs : ∀ i value, s.data.lookup i = some value → DeepEq.deepEqual item value = false) :
    s.Delete picks item = s := by
  have hscan : Delete.scan item (s.data.range picks) = -1 := by
    rcases Delete.scan_spec item (s.data.range picks) with ⟨h, _⟩ | ⟨pre, value, post, h, hv, _⟩
    · exact h
    · exfalso
      have hmem : (Delete.scan item (s.data.range picks), value) ∈
          pre ++ (Delete.scan item (s.data.range picks), value) :: post := by simp
      rw [← h] at hmem
      have := habs _ value ((GoMap.mem_range picks s.data _ _).mp hmem)
      rw [hv] at this
      cases this
  simp [set.Delete, hscan]

/-- When some live slot holds a value deep-equal to the item and no slot is
numbered below 0, `Delete` removes the first such slot in range order. -/
theorem Delete_of_present {T : Type} [DeepEq T] (picks : List Nat) (s : set T) (item : T)
    (hslots : ∀ i ∈ s.data.keys, (0 : Int) ≤ i)
    (hlive : ∃ i value, s.data.lookup i = some value ∧ DeepEq.deepEqual item value = true) :
    ∃ j value pre post, s.data.range picks = pre ++ (j, value) :: post ∧
      (∀ e ∈ pre, DeepEq.deepEqual item e.2 = false) ∧
      s.data.lookup j = some value ∧ DeepEq.deepEqual item value = true ∧
      s.Delete picks item = ⟨s.data.erase j, s.alertChan⟩ := by
  rcases Delete.scan_spec item (s.data.range picks) with
    ⟨_, h⟩ | ⟨pre, value, post, h1, hv, h2⟩
  · exfalso
    obtain ⟨i, value, hi, hv⟩ := hlive
    have := h (i, value) ((GoMap.mem_range picks s.data i value).mpr hi)
    simp only at this
    rw [hv] at this
    cases this
  · have hmem : (Delete.scan item (s.data.range picks), value) ∈
        pre ++ (Delete.scan item (s.data.range picks), value) :: post := by simp
    rw [← h1] at hmem
    have hlook := (GoMap.mem_range picks s.data _ _).mp hmem
    have hkey : Delete.scan item (s.data.range picks) ∈ s.data.keys := by
      rw [← AList.mem_keys, ← AList.lookup_isSome, hlook]; rfl
    have hne : Delete.scan item (s.data.range picks) ≠ -1 := by
      have := hslots _ hkey
      omega
    exact ⟨_, value, pre, post, h1, h2, hlook, hv, by simp [set.Delete, hne]⟩


/-- Slot numbers are never negative in a state reached from `NewSet`. -/
theorem runCalls_slots_nonneg {T : Type} [DeepEq T] (calls : List (SetCall T)) (s : set T)
    (hs : ∀ i ∈ s.data.keys, (0 : Int) ≤ i) :
    ∀ i ∈ (runCalls calls s).data.keys, (0 : Int) ≤ i := by
  induction calls generalizing s with
  | nil => exact hs
  | cons c rest ih =>
    unfold runCalls
    rw [List.foldl_cons]
    apply ih
    cases c with
    | add item =>
      intro i hi
      have hi2 : i ∈ AList.insert s.Size item s.data := AList.mem_keys.mpr hi
      rw [AList.mem_insert] at hi2
      rcases hi2 with rfl | h
      · simp [set.Size, GoMap.len]
      · exact hs i (AList.mem_keys.mp h)
    | delete picks item =>
      intro i hi
      simp only [SetCall.apply, set.Delete] at hi
      split at hi
      · exact hs i hi
      · have hi2 := AList.mem_keys.mpr hi
        rw [AList.mem_erase] at hi2
        exact hs i (AList.mem_keys.mp hi2.2)
    | clear =>
      intro i hi
      have hsub : ∀ (l : List Nat) (d : GoMap Int T),
          ∀ k ∈ (l.foldl (fun d (i : Nat) => d.erase (i : Int)) d).keys, k ∈ d.keys := by
        intro l
        induction l with
        | nil => intro d k hk; exact hk
        | cons a t iht =>
          intro d k hk
          rw [List.foldl_cons] at hk
          have h1 := AList.mem_keys.mpr (iht _ k hk)
          rw [AList.mem_erase] at h1
          exact AList.mem_keys.mp h1.2
      exact hs i (hsub (List.range s.Size.toNat) s.data i hi)

/-! ## Deduplicating collection: runs from a fresh set -/

/-- After `Add(1); Add(2)` on a fresh set, `Delete(1)` removes slot 0 in every
range order, since slot 0 is the only one that holds 1. -/
theorem delete_first_of_two (picks : List Nat) :
    runCalls [.add 1, .add 2, .delete picks 1] (NewSet : set Int) =
      ⟨(runCalls [.add 1, .add 2] (NewSet : set Int)).data.erase 0,
        (runCalls [.add 1, .add 2] (NewSet : set Int)).alertChan⟩ := by
  have hrun : runCalls [.add 1, .add 2, .delete picks 1] (NewSet : set Int) =
      (runCalls [.add 1, .add 2] (NewSet : set Int)).Delete picks 1 := rfl
  obtain ⟨j, value, _, _, _, _, hlook, hval, hdel⟩ :=
    Delete_of_present picks (runCalls [.add 1, .add 2] (NewSet : set Int)) 1
      (by decide) ⟨0, 1, by decide, by decide⟩
  have hkey : j ∈ (runCalls [.add 1, .add 2] (NewSet : set Int)).data.keys := by
    rw [← AList.mem_keys, ← AList.lookup_isSome, hlook]; rfl
  have hkeys : (runCalls [.add 1, .add 2] (NewSet : set Int)).data.keys = [1, 0] := by decide
  rw [hkeys] at hkey
  simp only [List.mem_cons, List.mem_singleton, List.not_mem_nil, or_false] at hkey
  rcases hkey with rfl | rfl
  · have h2 : (runCalls [.add 1, .add 2] (NewSet : set Int)).data.lookup 1 = some 2 := by
      decide
    rw [h2] at hlook
    have hv : value = 2 := (Option.some.inj hlook).symm
    subst hv
    exact absurd hval (by decide)
  · rw [hrun, hdel]

/-- C3 (evaluation of the code): after `Add(1); Add(2); Delete(1)` on a fresh
set, slot 1 still holds 2, yet `Value()` returns the empty list, in whatever
order the search loop of `Delete` visits the slots. -/
theorem Value_misses_live_slot (picks : List Nat) :
    (runCalls [.add 1, .add 2, .delete picks 1] (NewSet : set Int)).data.lookup 1 = some 2 ∧
    (runCalls [.add 1, .add 2, .delete picks 1] (NewSet : set Int)).Value = [] := by
  rw [delete_first_of_two]
  decide

/-- C4 (evaluation of the code): after `Add(1); Add(2); Delete(1)` on a fresh
set, `Clear()` followed by `Size()` yields 1: slot 1 still holds 2. -/
theorem Clear_leaves_live_slot (picks : List Nat) :
    (runCalls [.add 1, .add 2, .delete picks 1] (NewSet : set Int)).Clear.Size = 1 ∧
    (runCalls [.add 1, .add 2, .delete picks 1] (NewSet : set Int)).Clear.data.lookup 1
      = some 2 := by
  rw [delete_first_of_two]
  decide

/-- C10 (evaluation of the code): on a fresh set the first `Add` writes slot 0
and the second writes slot 1; after `Delete(1)` only slot 1 is live, and the
next `Add(3)` writes slot 1 again, replacing the 2 stored there. -/
theorem Add_assigns_slot_again (picks : List Nat) :
    (runCalls [.add 1] (NewSet : set Int)).data.entries = [⟨0, 1⟩] ∧
    (runCalls [.add 1, .add 2] (NewSet : set Int)).data.entries = [⟨1, 2⟩, ⟨0, 1⟩] ∧
    (runCalls [.add 1, .add 2, .delete picks 1] (NewSet : set Int)).data.entries = [⟨1, 2⟩] ∧
    ((runCalls [.add 1, .add 2, .delete picks 1] (NewSet : set Int)).Add 3).1.data.entries
      = [⟨1, 3⟩] := by
  rw [delete_first_of_two]
  decide

theorem Has_eq_true_of_lookup {T : Type} [DeepEq T] (picks : List Nat) (s : set T)
    (item value : T) (i : Int) (h : s.data.lookup i = some value)
    (hv : DeepEq.deepEqual item value = true) : s.Has picks item = true := by
  unfold set.Has
  rw [List.any_eq_true]
  exact ⟨(i, value), (GoMap.mem_range picks s.data i value).mpr h, hv⟩

/-- C5 (counterexample): with `x` the `float64` NaN, after `Add(x); Add(x)` on
a fresh set `Size()` is 2 but `Has(x)` is false, and `Delete(x)` removes
nothing: `Size()` is still 2. -/
theorem add_twice_NaN :
    (((NewSet : set float64).Add float64.NaN).1.Add float64.NaN).1.Size = 2 ∧
    (((NewSet : set float64).Add float64.NaN).1.Add float64.NaN).1.Has [] float64.NaN
      = false ∧
    ((((NewSet : set float64).Add float64.NaN).1.Add float64.NaN).1.Delete []
      float64.NaN).Size = 2 := by
  decide

/-- C5 (amended): for every value `x` that is deep-equal to itself, after
`Add(x); Add(x)` on a fresh set `Size()` is 2 and `Has(x)` is true; after one
further `Delete(x)` exactly one slot is left, it holds `x`, `Size()` is 1 and
`Has(x)` is still true, in whatever order the loops of `Has` and `Delete` visit
the slots. -/
theorem add_twice_delete_once {T : Type} [DeepEq T] (x : T) (p1 p2 p3 : List Nat)
    (hx : DeepEq.deepEqual x x = true) :
    (((NewSet : set T).Add x).1.Add x).1.Size = 2 ∧
    (((NewSet : set T).Add x).1.Add x).1.Has p1 x = true ∧
    ((((NewSet : set T).Add x).1.Add x).1.Delete p2 x).Size = 1 ∧
    ((((NewSet : set T).Add x).1.Add x).1.Delete p2 x).data.entries.map (fun e => e.2) = [x] ∧
    ((((NewSet : set T).Add x).1.Add x).1.Delete p2 x).Has p3 x = true := by
  have h0 : (((NewSet : set T).Add x).1.Add x).1.data.lookup 0 = some x := rfl
  obtain ⟨j, value, _, _, _, _, hlook, _, hdel⟩ :=
    Delete_of_present p2 (((NewSet : set T).Add x).1.Add x).1 x
      (by
        intro i hi
        have hk : (((NewSet : set T).Add x).1.Add x).1.data.keys = [1, 0] := rfl
        rw [hk] at hi
        simp only [List.mem_cons, List.mem_singleton, List.not_mem_nil, or_false] at hi
        omega)
      ⟨0, x, h0, hx⟩
  have hkey : j ∈ (((NewSet : set T).Add x).1.Add x).1.data.keys := by
    rw [← AList.mem_keys, ← AList.lookup_isSome, hlook]; rfl
  have hk : (((NewSet : set T).Add x).1.Add x).1.data.keys = [1, 0] := rfl
  rw [hk] at hkey
  simp only [List.mem_cons, List.mem_singleton, List.not_mem_nil, or_false] at hkey
  refine ⟨rfl, Has_eq_true_of_lookup p1 _ x x 0 h0 hx, ?_⟩
  rw [hdel]
  rcases hkey with rfl | rfl
  · exact ⟨rfl, rfl, Has_eq_true_of_lookup p3 _ x x 0 rfl hx⟩
  · exact ⟨rfl, rfl, Has_eq_true_of_lookup p3 _ x x 1 rfl hx⟩

/-- Witness of C5 (amended) at the `int` 5. -/
theorem add_twice_delete_once_witness :
    DeepEq.deepEqual (5 : Int) 5 = true ∧
    ((((NewSet : set Int).Add 5).1.Add 5).1.Size = 2 ∧
    (((NewSet : set Int).Add 5).1.Add 5).1.Has [] 5 = true ∧
    ((((NewSet : set Int).Add 5).1.Add 5).1.Delete [0] 5).Size = 1 ∧
    ((((NewSet : set Int).Add 5).1.Add 5).1.Delete [0] 5).data.entries.map (fun e => e.2)
      = [5] ∧
    ((((NewSet : set Int).Add 5).1.Add 5).1.Delete [0] 5).Has [1] 5 = true) :=
  ⟨by decide, add_twice_delete_once (5 : Int) [] [0] [1] (by decide)⟩

/-! ## Deduplicating collection: which slot Delete removes -/

/-- C8 (counterexample): after `Add(5); Add(5)` on a fresh set slots 0 and 1
both hold 5; when the search loop of `Delete(5)` visits slot 1 first, slot 1 is
removed and the lowest-numbered slot 0 stays. -/
theorem Delete_removes_higher_slot :
    (runCalls [.add 5, .add 5] (NewSet : set Int)).data.lookup 0 = some 5 ∧
    (runCalls [.add 5, .add 5] (NewSet : set Int)).data.lookup 1 = some 5 ∧
    (runCalls [.add 5, .add 5] (NewSet : set Int)).data.range [0] = [(1, 5), (0, 5)] ∧
    ((runCalls [.add 5, .add 5] (NewSet : set Int)).Delete [0] 5).data.lookup 0 = some 5 ∧
    ((runCalls [.add 5, .add 5] (NewSet : set Int)).Delete [0] 5).data.lookup 1 = none := by
  decide

/-- C8 (amended): in every set state reached from `NewSet`, when live slots
hold a value equal to the item (`reflect.DeepEqual`), `Delete(item)` removes
exactly one of them, the first one in the order in which its search loop visits
the table; and each of those slots is the one removed under some visiting
order. -/
theorem Delete_removes_first_visited {T : Type} [DeepEq T] (calls : List (SetCall T))
    (item : T)
    (hlive : ∃ i value, (runCalls calls NewSet).data.lookup i = some value ∧
      DeepEq.deepEqual item value = true) :
    (∀ picks, ∃ j value pre post,
        (runCalls calls NewSet).data.range picks = pre ++ (j, value) :: post ∧
        (∀ e ∈ pre, DeepEq.deepEqual item e.2 = false) ∧
        (runCalls calls NewSet).data.lookup j = some value ∧
        DeepEq.deepEqual item value = true ∧
        ((runCalls calls NewSet).Delete picks item).data = (runCalls calls NewSet).data.erase j) ∧
    (∀ j value, (runCalls calls NewSet).data.lookup j = some value →
        DeepEq.deepEqual item value = true →
        ∃ picks, ((runCalls calls NewSet).Delete picks item).data
          = (runCalls calls NewSet).data.erase j) := by
  have hslots := runCalls_slots_nonneg calls (NewSet : set T) (by intro i hi; simp [NewSet] at hi)
  constructor
  · intro picks
    obtain ⟨j, value, pre, post, h1, h2, h3, h4, h5⟩ :=
      Delete_of_present picks (runCalls calls NewSet) item hslots hlive
    exact ⟨j, value, pre, post, h1, h2, h3, h4, by rw [h5]⟩
  · intro j value hj hv
    have hmem : (j, value) ∈ (runCalls calls (NewSet : set T)).data.entries.map
        (fun e => (e.1, e.2)) :=
      List.mem_map.mpr ⟨⟨j, value⟩, AList.mem_lookup_iff.mp hj, rfl⟩
    obtain ⟨n, hn⟩ := List.get?_of_mem hmem
    refine ⟨[n], ?_⟩
    have hrange : (runCalls calls (NewSet : set T)).data.range [n]
        = (j, value) :: ((runCalls calls (NewSet : set T)).data.entries.map
            (fun e => (e.1, e.2))).eraseIdx n :=
      pickOrder_single _ n (j, value) hn
    have hkey : j ∈ (runCalls calls (NewSet : set T)).data.keys := by
      rw [← AList.mem_keys, ← AList.lookup_isSome, hj]; rfl
    have hne : j ≠ -1 := by
      have := hslots j hkey
      omega
    simp [set.Delete, hrange, Delete.scan_cons_match item value j _ hv, hne]

/-- Witness of C8 (amended) at the state after `Add(5); Add(5)` and item 5. -/
theorem Delete_removes_first_visited_witness :
    (∃ i value, (runCalls [.add 5, .add 5] (NewSet : set Int)).data.lookup i = some value ∧
      DeepEq.deepEqual (5 : Int) value = true) ∧
    ((∀ picks, ∃ j value pre post,
        (runCalls [.add 5, .add 5] (NewSet : set Int)).data.range picks
          = pre ++ (j, value) :: post ∧
        (∀ e ∈ pre, DeepEq.deepEqual (5 : Int) e.2 = false) ∧
        (runCalls [.add 5, .add 5] (NewSet : set Int)).data.lookup j = some value ∧
        DeepEq.deepEqual (5 : Int) value = true ∧
        ((runCalls [.add 5, .add 5] (NewSet : set Int)).Delete picks 5).data
          = (runCalls [.add 5, .add 5] (NewSet : set Int)).data.erase j) ∧
     (∀ j value, (runCalls [.add 5, .add 5] (NewSet : set Int)).data.lookup j = some value →
        DeepEq.deepEqual (5 : Int) value = true →
        ∃ picks, ((runCalls [.add 5, .add 5] (NewSet : set Int)).Delete picks 5).data
          = (runCalls [.add 5, .add 5] (NewSet : set Int)).data.erase j)) :=
  ⟨⟨0, 5, by decide, by decide⟩,
    Delete_removes_first_visited [.add 5, .add 5] 5 ⟨0, 5, by decide, by decide⟩⟩

/-! ## Keyed mapping: the snapshot returned by Value -/

theorem GoMap.len_eq_keys_length {K V : Type} (m : GoMap K V) :
    m.len = (m.keys.length : Int) := by
  simp [GoMap.len, AList.keys, List.keys]

theorem GoMap.len_erase_of_mem {K V : Type} [DecidableEq K] (m : GoMap K V) (k : K)
    (h : k ∈ m) : GoMap.len (m.erase k) = m.len - 1 := by
  have hk : k ∈ m.keys := AList.mem_keys.mp h
  have hpos : 0 < m.keys.length := List.length_pos_of_mem hk
  rw [GoMap.len_eq_keys_length, GoMap.len_eq_keys_length, AList.keys_erase,
    List.length_erase_of_mem hk]
  omega

theorem GoMap.len_insert {K V : Type} [DecidableEq K] (m : GoMap K V) (k : K) (v : V) :
    GoMap.len (m.insert k v) = if k ∈ m then m.len else m.len + 1 := by
  rw [GoMap.len_eq_keys_length, GoMap.len_eq_keys_length, AList.keys_insert]
  by_cases h : k ∈ m
  · have hk : k ∈ m.keys := AList.mem_keys.mp h
    have hpos : 0 < m.keys.length := List.length_pos_of_mem hk
    rw [if_pos h, List.length_cons, List.length_erase_of_mem hk]
    omega
  · have hk : k ∉ m.keys := fun hk => h (AList.mem_keys.mpr hk)
    rw [if_neg h, List.length_cons, List.erase_of_not_mem hk]
    omega

/-! ## Deduplicating collection: Has and the frame of Delete -/

/-- C11: for every set state and item, `Has(item)` is true if and only if some
live slot holds a value deep-equal to the item (`reflect.DeepEqual`), in
whatever order the loop of `Has` visits the slots. -/
theorem Has_iff_live_slot {T : Type} [DeepEq T] (picks : List Nat) (s : set T)
    (item : T) :
    s.Has picks item = true ↔
      ∃ i value, s.data.lookup i = some value ∧ DeepEq.deepEqual item value = true := by
  constructor
  · intro h
    unfold set.Has at h
    rw [List.any_eq_true] at h
    obtain ⟨⟨i, v⟩, hmem, hv⟩ := h
    exact ⟨i, v, (GoMap.mem_range picks s.data i v).mp hmem, hv⟩
  · rintro ⟨i, value, hi, hv⟩
    exact Has_eq_true_of_lookup picks s item value i hi hv

/-- C17: in every set state reached from `NewSet`, either no live slot holds a
value equal to the item (`reflect.DeepEqual`) and `Delete(item)` leaves the
state unchanged, or `Delete(item)` removes exactly one slot `j`: slot `j` held
a value equal to the item, every other slot is unchanged, and `Size()`
decreases by exactly one. -/
theorem Delete_frame {T : Type} [DeepEq T] (calls : List (SetCall T))
    (picks : List Nat) (item : T) :
    ((∀ i value, (runCalls calls NewSet).data.lookup i = some value →
        DeepEq.deepEqual item value = false) ∧
      (runCalls calls NewSet).Delete picks item = runCalls calls NewSet) ∨
    (∃ j value, (runCalls calls NewSet).data.lookup j = some value ∧
      DeepEq.deepEqual item value = true ∧
      ((runCalls calls NewSet).Delete picks item).data.lookup j = none ∧
      (∀ i, i ≠ j → ((runCalls calls NewSet).Delete picks item).data.lookup i
          = (runCalls calls NewSet).data.lookup i) ∧
      ((runCalls calls NewSet).Delete picks item).Size = (runCalls calls NewSet).Size - 1 ∧
      ((runCalls calls NewSet).Delete picks item).alertChan
          = (runCalls calls NewSet).alertChan) := by
  by_cases hlive : ∃ i value, (runCalls calls (NewSet : set T)).data.lookup i = some value ∧
      DeepEq.deepEqual item value = true
  · right
    have hslots := runCalls_slots_nonneg calls (NewSet : set T)
      (by intro i hi; simp [NewSet] at hi)
    obtain ⟨j, value, _, _, _, _, hlook, hval, hdel⟩ :=
      Delete_of_present picks (runCalls calls NewSet) item hslots hlive
    have hmem : j ∈ (runCalls calls (NewSet : set T)).data := by
      rw [← AList.lookup_isSome, hlook]; rfl
    refine ⟨j, value, hlook, hval, ?_, ?_, ?_, ?_⟩
    · rw [hdel]
      exact AList.lookup_erase j _
    · intro i hi
      rw [hdel]
      exact AList.lookup_erase_ne hi
    · rw [hdel]
      exact GoMap.len_erase_of_mem _ j hmem
    · rw [hdel]
  · left
    have habs : ∀ i value, (runCalls calls (NewSet : set T)).data.lookup i = some value →
        DeepEq.deepEqual item value = false := by
      intro i value hi
      cases hv : DeepEq.deepEqual item value with
      | false => rfl
      | true => exact absurd ⟨i, value, hi, hv⟩ hlive
    exact ⟨habs, Delete_of_absent picks _ item habs⟩

/-! ## Deduplicating collection: what Add and Value do after a Delete -/

/-- C15 (evaluation of the code): after `Add(1); Add(2); Delete(1)` on a fresh
set the only live value is 2 and `Size()` is 1; after a further `Add(3)` the
only live value is 3 and `Size()` is still 1: the 2 has been overwritten. -/
theorem Add_overwrites_live_value (picks : List Nat) :
    (runCalls [.add 1, .add 2, .delete picks 1] (NewSet : set Int)).data.entries.map
        (fun e => e.2) = [2] ∧
    (runCalls [.add 1, .add 2, .delete picks 1] (NewSet : set Int)).Size = 1 ∧
    ((runCalls [.add 1, .add 2, .delete picks 1] (NewSet : set Int)).Add 3).1.data.entries.map
        (fun e => e.2) = [3] ∧
    ((runCalls [.add 1, .add 2, .delete picks 1] (NewSet : set Int)).Add 3).1.Size = 1 := by
  rw [delete_first_of_two]
  decide

/-- C16 (evaluation of the code): after `Add(1); Add(2); Delete(1)` on a fresh
set, `Size()` is 1 and slot 1 holds 2, yet `Value()` has length 0 and does not
contain 2: the scan stops below the live slot. -/
theorem Value_shorter_than_Size (picks : List Nat) :
    (runCalls [.add 1, .add 2, .delete picks 1] (NewSet : set Int)).Size = 1 ∧
    (runCalls [.add 1, .add 2, .delete picks 1] (NewSet : set Int)).data.lookup 1 = some 2 ∧
    (runCalls [.add 1, .add 2, .delete picks 1] (NewSet : set Int)).Value.length = 0 ∧
    (2 : Int) ∉ (runCalls [.add 1, .add 2, .delete picks 1] (NewSet : set Int)).Value := by
  rw [delete_first_of_two]
  decide

/-! ## Deduplicating collection: a run of Add calls on a fresh set -/

theorem addAll_append {T : Type} (items : List T) (x : T) (s : set T) :
    addAll (items ++ [x]) s = ((addAll items s).Add x).1 := by
  induction items generalizing s with
  | nil => rfl
  | cons a rest ih =>
    rw [List.cons_append, addAll, addAll, ih]

/-- After a run of `Add` calls on a fresh set the size is the number of items
and slot `j` holds the item added at position `j`. -/
theorem addAll_slots {T : Type} (items : List T) :
    (addAll items (NewSet : set T)).Size = (items.length : Int) ∧
    ∀ j : Int, (addAll items (NewSet : set T)).data.lookup j
      = if 0 ≤ j then items.get? j.toNat else none := by
  induction items using List.reverseRecOn with
  | nil =>
    refine ⟨rfl, ?_⟩
    intro j
    have h : (addAll [] (NewSet : set T)).data.lookup j = none := AList.lookup_empty j
    rw [h]
    split <;> rfl
  | append_singleton items x ih =>
    obtain ⟨hsize, hlook⟩ := ih
    rw [addAll_append]
    have hdata : ((addAll items (NewSet : set T)).Add x).1.data
        = (addAll items (NewSet : set T)).data.insert (items.length : Int) x := by
      show (addAll items (NewSet : set T)).data.insert (addAll items (NewSet : set T)).Size x = _
      rw [hsize]
    have hnot : (items.length : Int) ∉ (addAll items (NewSet : set T)).data := by
      rw [← AList.lookup_eq_none, hlook]
      simp
    constructor
    · show GoMap.len ((addAll items (NewSet : set T)).Add x).1.data = _
      rw [hdata, GoMap.len_insert, if_neg hnot]
      have h2 : (addAll items (NewSet : set T)).data.len = (items.length : Int) := hsize
      rw [h2]
      simp
    · intro j
      rw [hdata]
      by_cases hj : j = (items.length : Int)
      · subst hj
        rw [AList.lookup_insert]
        simp
      · rw [AList.lookup_insert_ne hj, hlook]
        by_cases h0 : 0 ≤ j
        · rw [if_pos h0, if_pos h0]
          have hne : j.toNat ≠ items.length := by omega
          rcases Nat.lt_or_gt_of_ne hne with hlt | hgt
          · rw [List.get?_eq_getElem?, List.get?_eq_getElem?, List.getElem?_append_left hlt]
          · rw [List.get?_eq_none.mpr (by omega), List.get?_eq_none.mpr (by simp; omega)]
        · rw [if_neg h0, if_neg h0]

/-- The scan of `Value` over slots `0..k-1` of a table whose slot `i` holds the
item at position `i` of a list yields the first `k` items of the list. -/
theorem Value_scan_take {T : Type} (data : GoMap Int T) (items : List T)
    (hlook : ∀ i : Nat, data.lookup (i : Int) = items.get? i) (k : Nat) :
    (List.range k).foldl
      (fun values (i : Nat) =>
        match data.lookup (i : Int) with
        | some value => values ++ [value]
        | none => values)
      [] = items.take k := by
  induction k with
  | zero => rfl
  | succ k ih =>
    rw [List.range_succ, List.foldl_append, ih, List.foldl_cons, List.foldl_nil, hlook k]
    cases hk : items.get? k with
    | none =>
      have hle : items.length ≤ k := List.get?_eq_none.mp hk
      simp only []
      rw [List.take_of_length_le hle, List.take_of_length_le (by omega)]
    | some v =>
      simp only []
      rw [List.take_succ]
      have hk2 : items[k]? = some v := by rw [← List.get?_eq_getElem?]; exact hk
      rw [hk2]
      rfl

/-- C18: for every list of `n` items added by `Add` to a fresh set, with no
`Delete` or `Clear` in between, slot `i` holds the `i`-th added item and the
live slots are exactly `0..n-1`, `Size()` is `n`, and `Value()` equals the list
of added items in order. -/
theorem addAll_dense {T : Type} (items : List T) :
    (∀ i : Nat, (addAll items (NewSet : set T)).data.lookup (i : Int) = items.get? i) ∧
    (∀ j ∈ (addAll items (NewSet : set T)).data.keys, 0 ≤ j ∧ j < (items.length : Int)) ∧
    (addAll items (NewSet : set T)).Size = (items.length : Int) ∧
    (addAll items (NewSet : set T)).Value = items := by
  obtain ⟨hsize, hlook⟩ := addAll_slots items
  have hnat : ∀ i : Nat, (addAll items (NewSet : set T)).data.lookup (i : Int)
      = items.get? i := by
    intro i
    rw [hlook]
    simp
  refine ⟨hnat, ?_, hsize, ?_⟩
  · intro j hj
    have hsome : ((addAll items (NewSet : set T)).data.lookup j).isSome = true :=
      AList.lookup_isSome.mpr (AList.mem_keys.mpr hj)
    rw [hlook] at hsome
    by_cases h0 : 0 ≤ j
    · rw [if_pos h0] at hsome
      refine ⟨h0, ?_⟩
      by_contra hge
      rw [List.get?_eq_none.mpr (by omega)] at hsome
      simp at hsome
    · rw [if_neg h0] at hsome
      simp at hsome
  · have hlen : (addAll items (NewSet : set T)).data.len = (items.length : Int) := hsize
    show (List.range (addAll items (NewSet : set T)).data.len.toNat).foldl _ [] = items
    rw [hlen, Int.toNat_ofNat, Value_scan_take _ items hnat, List.take_length]

/-! ## FIFO buffer -/

theorem appendAll_of_room {T : Type} (items : List T) (cap : Nat) (buf : List T)
    (h : buf.length + items.length ≤ cap) :
    appendAll items (⟨⟨cap, buf⟩⟩ : queue T) = some ⟨⟨cap, buf ++ items⟩⟩ := by
  induction items generalizing buf with
  | nil => simp [appendAll]
  | cons a rest ih =>
    simp only [List.length_cons] at h
    have hlt : buf.length < cap := by omega
    have hstep : (⟨⟨cap, buf⟩⟩ : queue T).Append a = some ⟨⟨cap, buf ++ [a]⟩⟩ := by
      simp [queue.Append, Chan.send, hlt]
    rw [appendAll, hstep]
    simp only []
    rw [ih (buf ++ [a]) (by simp; omega)]
    simp

theorem popN_of_buffered {T : Type} (xs rest : List T) (cap : Nat) :
    popN xs.length (⟨⟨cap, xs ++ rest⟩⟩ : queue T) = some (xs, ⟨⟨cap, rest⟩⟩) := by
  induction xs with
  | nil => rfl
  | cons a t ih =>
    have hpop : (⟨⟨cap, (a :: t) ++ rest⟩⟩ : queue T).Pop = some (a, ⟨⟨cap, t ++ rest⟩⟩) := rfl
    rw [List.length_cons, popN, hpop]
    simp only []
    rw [ih]

theorem NewQueueWithLimit_of_accepted {T : Type} (maxLen : Nat) (limit : Int)
    (h0 : 0 ≤ limit) (h1 : limit ≤ (maxLen : Int)) :
    (NewQueueWithLimit maxLen limit : Option (queue T)) = some ⟨⟨limit.toNat, []⟩⟩ := by
  simp [NewQueueWithLimit, Chan.make, h0, h1]

theorem NewQueueWithLimit_eq_some {T : Type} (maxLen : Nat) (limit : Int) (q : queue T)
    (h : NewQueueWithLimit maxLen limit = some q) :
    0 ≤ limit ∧ q = ⟨⟨limit.toNat, []⟩⟩ := by
  unfold NewQueueWithLimit at h
  split at h
  · rename_i hl
    simp only [Option.some.injEq] at h
    exact ⟨hl.1, h.symm⟩
  · cases h

/-- C12: for every limit `n` and every list of `k ≤ n` items, on a queue from
`NewQueueWithLimit(n)` appending the items in order succeeds without any `Pop`,
and `k` calls of `Pop` then return the items in the order they were appended
and leave the queue empty. -/
theorem queue_fifo {T : Type} (maxLen : Nat) (n : Int) (items : List T) (q0 : queue T)
    (hq : NewQueueWithLimit maxLen n = some q0) (h : (items.length : Int) ≤ n) :
    ∃ q1, appendAll items q0 = some q1 ∧ popN items.length q1 = some (items, q0) := by
  obtain ⟨h0, rfl⟩ := NewQueueWithLimit_eq_some maxLen n q0 hq
  refine ⟨⟨⟨n.toNat, items⟩⟩, ?_, ?_⟩
  · have := appendAll_of_room items n.toNat [] (by simp; omega)
    simpa using this
  · have := popN_of_buffered items [] n.toNat
    simpa using this

/-- Witness of C12 at limit 3 and the items 1, 2, 3, where `make` accepts
buffers of up to `2 ^ 44` items. -/
theorem queue_fifo_witness :
    (NewQueueWithLimit (2 ^ 44) 3 = some (⟨⟨3, []⟩⟩ : queue Int) ∧
      (([(1 : Int), 2, 3].length : Nat) : Int) ≤ 3) ∧
    ∃ q1, appendAll [(1 : Int), 2, 3] (⟨⟨3, []⟩⟩ : queue Int) = some q1 ∧
      popN [(1 : Int), 2, 3].length q1 = some ([(1 : Int), 2, 3], ⟨⟨3, []⟩⟩) :=
  ⟨⟨by simp [NewQueueWithLimit, Chan.make], by decide⟩,
    queue_fifo (2 ^ 44) 3 [(1 : Int), 2, 3] ⟨⟨3, []⟩⟩
      (by simp [NewQueueWithLimit, Chan.make]) (by decide)⟩

/-- C13 (counterexample): on a queue from `NewQueue` with no item enqueued and
no `Pop` running, `Append(1)` blocks: it cannot enqueue the item. -/
theorem NewQueue_Append_blocks :
    (NewQueue : queue Int).items.buf = [] ∧
    ((NewQueue : queue Int).Append 1).isNone = true := by
  decide

/-- C13 (amended): a queue from `NewQueue` has a channel of capacity 0; for
every item, `Append` without a concurrent `Pop` blocks, and `Append` together
with a `Pop` hands the item to that `Pop` and leaves the queue as it was, so no
item is ever enqueued and waiting. -/
theorem NewQueue_is_rendezvous {T : Type} (item : T) :
    (NewQueue : queue T).items.cap = 0 ∧
    (NewQueue : queue T).Append item = none ∧
    (NewQueue : queue T).Pop = none ∧
    (NewQueue : queue T).AppendWithPop item = (item, NewQueue) := by
  exact ⟨rfl, rfl, rfl, rfl⟩

/-! ## Goroutines: one step -/

theorem Sys.progOf_set_self {D A : Type} (data : D) (mutex : RWMutex)
    (threads : List (Goroutine D A)) (recvs : Nat) (received : List A) (u : Nat)
    (g : Goroutine D A) (hlt : u < threads.length) :
    (⟨data, mutex, threads.set u g, recvs, received⟩ : Sys D A).progOf u = g.prog := by
  simp [Sys.progOf, List.getElem?_set, hlt]

theorem Sys.get?_set_ne {D A : Type} (threads : List (Goroutine D A)) (u t : Nat)
    (g : Goroutine D A) (h : t ≠ u) : (threads.set u g).get? t = threads.get? t := by
  simp [List.getElem?_set, h.symm]

/-- What one step of goroutine `u` does: it runs the head of its remaining
steps; other goroutines are left as they are; only a send uses up a receive,
only `Lock`, `RLock` and `Unlock` can change who holds the mutex for writing,
and those steps run only when the mutex allows them. -/
theorem Sys.step_spec {D A : Type} (sys sys' : Sys D A) (u : Nat)
    (h : sys.step u = some sys') :
    ∃ i rest, sys.progOf u = i :: rest ∧ sys'.progOf u = rest ∧
      (∀ t, t ≠ u → sys'.threads.get? t = sys.threads.get? t) ∧
      ((sys'.recvs = sys.recvs ∧ sys'.received = sys.received ∧ ∀ a, i ≠ .send a) ∨
        (∃ a, i = .send a ∧ 0 < sys.recvs ∧ sys'.recvs = sys.recvs - 1 ∧
          sys'.received = sys.received ++ [a])) ∧
      (i.isAcquire = true → sys.mutex.writer = none) ∧
      (i = .unlock → sys.mutex.writer = some u) ∧
      (i.isAcquire = false → i ≠ .unlock → sys'.mutex.writer = sys.mutex.writer) := by
  unfold Sys.step at h
  cases hg : sys.threads.get? u with
  | none => simp only [hg] at h; cases h
  | some g =>
    simp only [hg] at h
    have hlt : u < sys.threads.length := (List.get?_eq_some.mp hg).1
    cases hp : g.prog with
    | nil => simp only [hp] at h; cases h
    | cons i rest =>
      have hprog : sys.progOf u = i :: rest := by simp only [Sys.progOf, hg, hp]
      refine ⟨i, rest, hprog, ?_⟩
      cases i with
      | drain =>
        simp only [hp, Option.some.injEq] at h
        subst h
        refine ⟨Sys.progOf_set_self _ _ _ _ _ u _ hlt,
          fun t ht => Sys.get?_set_ne _ u t _ ht, Or.inl ⟨rfl, rfl, ?_⟩, ?_, ?_, ?_⟩ <;>
          simp [Instr.isAcquire]
      | rlock =>
        simp only [hp] at h
        split at h
        · rename_i hw
          simp only [Option.some.injEq] at h
          subst h
          refine ⟨Sys.progOf_set_self _ _ _ _ _ u _ hlt,
            fun t ht => Sys.get?_set_ne _ u t _ ht, Or.inl ⟨rfl, rfl, ?_⟩, ?_, ?_, ?_⟩ <;>
            simp [Instr.isAcquire, hw]
        · cases h
      | runlock =>
        simp only [hp] at h
        split at h
        · simp only [Option.some.injEq] at h
          subst h
          refine ⟨Sys.progOf_set_self _ _ _ _ _ u _ hlt,
            fun t ht => Sys.get?_set_ne _ u t _ ht, Or.inl ⟨rfl, rfl, ?_⟩, ?_, ?_, ?_⟩ <;>
            simp [Instr.isAcquire]
        · cases h
      | lock =>
        simp only [hp] at h
        split at h
        · rename_i hw
          simp only [Option.some.injEq] at h
          subst h
          refine ⟨Sys.progOf_set_self _ _ _ _ _ u _ hlt,
            fun t ht => Sys.get?_set_ne _ u t _ ht, Or.inl ⟨rfl, rfl, ?_⟩, ?_, ?_, ?_⟩ <;>
            simp [Instr.isAcquire, hw.1]
        · cases h
      | unlock =>
        simp only [hp] at h
        split at h
        · rename_i hw
          simp only [Option.some.injEq] at h
          subst h
          refine ⟨Sys.progOf_set_self _ _ _ _ _ u _ hlt,
            fun t ht => Sys.get?_set_ne _ u t _ ht, Or.inl ⟨rfl, rfl, ?_⟩, ?_, ?_, ?_⟩ <;>
            simp [Instr.isAcquire, hw]
        · cases h
      | act f =>
        simp only [hp, Option.some.injEq] at h
        subst h
        refine ⟨Sys.progOf_set_self _ _ _ _ _ u _ hlt,
          fun t ht => Sys.get?_set_ne _ u t _ ht, Or.inl ⟨rfl, rfl, ?_⟩, ?_, ?_, ?_⟩ <;>
          simp [Instr.isAcquire]
      | send payload =>
        simp only [hp] at h
        split at h
        · rename_i hr
          simp only [Option.some.injEq] at h
          subst h
          refine ⟨Sys.progOf_set_self _ _ _ _ _ u _ hlt,
            fun t ht => Sys.get?_set_ne _ u t _ ht,
            Or.inr ⟨payload, rfl, hr, rfl, rfl⟩, ?_, ?_, ?_⟩ <;>
            simp [Instr.isAcquire]
        · cases h

/-! ## Goroutines: invariants of schedules -/

theorem Sys.run_invariant {D A : Type} (P : Sys D A → Prop)
    (hstep : ∀ sys u sys', P sys → sys.step u = some sys' → P sys')
    (sched : List Nat) (sys : Sys D A) (h : P sys) : P (sys.run sched) := by
  induction sched generalizing sys with
  | nil => exact h
  | cons t rest ih =>
    rw [Sys.run]
    apply ih
    cases hs : sys.step t with
    | none => exact h
    | some sys' => exact hstep sys t sys' h hs

theorem Sys.progOf_congr {D A : Type} (sys sys' : Sys D A) (t : Nat)
    (h : sys'.threads.get? t = sys.threads.get? t) : sys'.progOf t = sys.progOf t := by
  unfold Sys.progOf
  rw [h]

theorem Sys.returned_eq_false {D A : Type} (sys : Sys D A) (t : Nat)
    (h : sys.progOf t ≠ []) : sys.returned t = false := by
  unfold Sys.returned
  unfold Sys.progOf at h
  cases hg : sys.threads.get? t with
  | none => rfl
  | some g =>
    rw [hg] at h
    cases hp : g.prog with
    | nil => exact absurd hp h
    | cons i rest => simp [hp]

theorem Sys.progOf_eq_nil_of_returned {D A : Type} (sys : Sys D A) (t : Nat)
    (h : sys.returned t = true) : sys.progOf t = [] := by
  by_contra hne
  rw [Sys.returned_eq_false sys t hne] at h
  cases h

theorem sendBeforeUnlock_cons {D A : Type} (i : Instr D A) (rest : List (Instr D A))
    (h : sendBeforeUnlock (i :: rest) = true) :
    (∃ a, i = .send a) ∨ (i ≠ .unlock ∧ sendBeforeUnlock rest = true) := by
  cases i <;> simp_all [sendBeforeUnlock]

theorem firstSend_cons_of_not_send {D A : Type} (i : Instr D A) (rest : List (Instr D A))
    (h : ∀ a, i ≠ .send a) : firstSend (i :: rest) = firstSend rest := by
  cases i <;> simp_all [firstSend]

/-- With no receive ready, a goroutine that reaches a send before any `Unlock`
stays so after every step of any goroutine. -/
theorem Sys.step_keeps_pending_send {D A : Type} (sys sys' : Sys D A) (u t : Nat)
    (h : sys.recvs = 0 ∧ sendBeforeUnlock (sys.progOf t) = true)
    (hstep : sys.step u = some sys') :
    sys'.recvs = 0 ∧ sendBeforeUnlock (sys'.progOf t) = true := by
  obtain ⟨hr, hs⟩ := h
  obtain ⟨i, rest, hprog, hprog', hother, hrecv, _, _, _⟩ := Sys.step_spec sys sys' u hstep
  rcases hrecv with ⟨hr', _, hnosend⟩ | ⟨a, _, hpos, _, _⟩
  · refine ⟨by rw [hr', hr], ?_⟩
    by_cases htu : t = u
    · subst htu
      rw [hprog] at hs
      rcases sendBeforeUnlock_cons i rest hs with ⟨a, ha⟩ | ⟨_, hrest⟩
      · exact absurd ha (hnosend a)
      · rw [hprog']; exact hrest
    · rw [Sys.progOf_congr sys sys' t (hother t htu)]; exact hs
  · omega

/-- With no receive ready, a goroutine that holds the mutex for writing and
reaches a send before any `Unlock` keeps holding it after every step. -/
theorem Sys.step_keeps_lock {D A : Type} (sys sys' : Sys D A) (u t : Nat)
    (h : (sys.recvs = 0 ∧ sendBeforeUnlock (sys.progOf t) = true) ∧
      sys.mutex.writer = some t)
    (hstep : sys.step u = some sys') :
    (sys'.recvs = 0 ∧ sendBeforeUnlock (sys'.progOf t) = true) ∧
      sys'.mutex.writer = some t := by
  obtain ⟨hps, hw⟩ := h
  refine ⟨Sys.step_keeps_pending_send sys sys' u t hps hstep, ?_⟩
  obtain ⟨i, rest, hprog, _, _, _, hacq, hunl, hsame⟩ := Sys.step_spec sys sys' u hstep
  cases hia : i.isAcquire with
  | true =>
    have := hacq hia
    rw [hw] at this
    cases this
  | false =>
    by_cases hiu : i = .unlock
    · have hwu := hunl hiu
      rw [hw] at hwu
      have htu : t = u := Option.some.inj hwu
      subst htu
      rw [hprog, hiu] at hps
      simp [sendBeforeUnlock] at hps
    · rw [hsame hia hiu]; exact hw

/-- While some goroutine holds the mutex for writing, a goroutine that still
has to acquire the mutex still has to after every step. -/
theorem Sys.step_keeps_waiting {D A : Type} (sys sys' : Sys D A) (u v t : Nat)
    (hw : sys.mutex.writer = some t) (hv : (sys.progOf v).any Instr.isAcquire = true)
    (hstep : sys.step u = some sys') : (sys'.progOf v).any Instr.isAcquire = true := by
  obtain ⟨i, rest, hprog, hprog', hother, _, hacq, _, _⟩ := Sys.step_spec sys sys' u hstep
  by_cases hvu : v = u
  · subst hvu
    rw [hprog, List.any_cons] at hv
    cases hia : i.isAcquire with
    | true =>
      have := hacq hia
      rw [hw] at this
      cases this
    | false =>
      rw [hia, Bool.false_or] at hv
      rw [hprog']; exact hv
  · rw [Sys.progOf_congr sys sys' v (hother v hvu)]; exact hv

/-- The item of a goroutine's first send is either still to be sent or among
the received items, after every step. -/
theorem Sys.step_keeps_sent_or_pending {D A : Type} (sys sys' : Sys D A) (u t : Nat) (a : A)
    (h : firstSend (sys.progOf t) = some a ∨ a ∈ sys.received)
    (hstep : sys.step u = some sys') :
    firstSend (sys'.progOf t) = some a ∨ a ∈ sys'.received := by
  obtain ⟨i, rest, hprog, hprog', hother, hrecv, _, _, _⟩ := Sys.step_spec sys sys' u hstep
  have hgrow : ∀ x, x ∈ sys.received → x ∈ sys'.received := by
    intro x hx
    rcases hrecv with ⟨_, hrec, _⟩ | ⟨b, _, _, _, hrec⟩
    · rw [hrec]; exact hx
    · rw [hrec]; exact List.mem_append_left _ hx
  rcases h with hpend | hdone
  · by_cases htu : t = u
    · subst htu
      rw [hprog] at hpend
      rcases hrecv with ⟨_, _, hnosend⟩ | ⟨b, hb, _, _, hrec⟩
      · left
        rw [hprog', ← firstSend_cons_of_not_send i rest hnosend]
        exact hpend
      · right
        rw [hb] at hpend
        have hba : b = a := by simpa [firstSend] using hpend
        rw [hrec, hba]
        simp
    · left
      rw [Sys.progOf_congr sys sys' t (hother t htu)]; exact hpend
  · exact Or.inr (hgrow a hdone)

/-! ## Insert and Add: the send under the exclusive lock -/

/-- With no receive ready, a goroutine that reaches a send before any `Unlock`
never returns; once it holds the mutex for writing it keeps it, and every
goroutine that still has to acquire the mutex never returns either. -/
theorem Sys.blocked_without_subscriber {D A : Type} (sys : Sys D A) (t u : Nat)
    (hr : sys.recvs = 0) (hs : sendBeforeUnlock (sys.progOf t) = true)
    (sched sched2 : List Nat) :
    (sys.run sched).returned t = false ∧
    ((sys.run sched).mutex.writer = some t →
      ((sys.run sched).run sched2).mutex.writer = some t ∧
      (((sys.run sched).progOf u).any Instr.isAcquire = true →
        (((sys.run sched).run sched2).progOf u).any Instr.isAcquire = true ∧
        ((sys.run sched).run sched2).returned u = false)) := by
  have hA := Sys.run_invariant
    (fun s : Sys D A => s.recvs = 0 ∧ sendBeforeUnlock (s.progOf t) = true)
    (fun s v s' h hstep => Sys.step_keeps_pending_send s s' v t h hstep) sched sys ⟨hr, hs⟩
  constructor
  · apply Sys.returned_eq_false
    intro hnil
    have h2 := hA.2
    rw [hnil] at h2
    simp [sendBeforeUnlock] at h2
  · intro hw
    have hB := Sys.run_invariant
      (fun s : Sys D A => (s.recvs = 0 ∧ sendBeforeUnlock (s.progOf t) = true) ∧
        s.mutex.writer = some t)
      (fun s v s' h hstep => Sys.step_keeps_lock s s' v t h hstep) sched2 (sys.run sched)
      ⟨hA, hw⟩
    refine ⟨hB.2, ?_⟩
    intro hu
    have hC := Sys.run_invariant
      (fun s : Sys D A => ((s.recvs = 0 ∧ sendBeforeUnlock (s.progOf t) = true) ∧
        s.mutex.writer = some t) ∧ (s.progOf u).any Instr.isAcquire = true)
      (fun s v s' h hstep => ⟨Sys.step_keeps_lock s s' v t h.1 hstep,
        Sys.step_keeps_waiting s s' v u t h.1.2 h.2 hstep⟩) sched2 (sys.run sched)
      ⟨⟨hA, hw⟩, hu⟩
    refine ⟨hC.2, ?_⟩
    apply Sys.returned_eq_false
    intro hnil
    have h2 := hC.2
    rw [hnil] at h2
    simp at h2

/-- A goroutine whose steps contain a send returns only after its item has
been received. -/
theorem Sys.returned_after_receive {D A : Type} (sys : Sys D A) (t : Nat) (a : A)
    (hs : firstSend (sys.progOf t) = some a) (sched : List Nat)
    (hret : (sys.run sched).returned t = true) : a ∈ (sys.run sched).received := by
  have hD := Sys.run_invariant
    (fun s : Sys D A => firstSend (s.progOf t) = some a ∨ a ∈ s.received)
    (fun s v s' h hstep => Sys.step_keeps_sent_or_pending s s' v t a h hstep) sched sys
    (Or.inl hs)
  rcases hD with hpend | hdone
  · rw [Sys.progOf_eq_nil_of_returned _ t hret] at hpend
    simp [firstSend] at hpend
  · exact hdone

/-- One `Insert` running alone with one receive ready does what the sequential
`safeMap.Insert` does to the table, and its item is received. -/
theorem InsertProg_alone {K T : Type} [GoKey K] [Inhabited K] [Inhabited T]
    (key : K) (value : T) (table : KeyMap K T) :
    ((safeMap.InsertSys key value table [] 1).run [0, 0, 0, 0, 0]).data
      = ((⟨table, Chan.make 0⟩ : safeMap K T).Insert key value).1.data ∧
    ((safeMap.InsertSys key value table [] 1).run [0, 0, 0, 0, 0]).received
      = [((⟨table, Chan.make 0⟩ : safeMap K T).Insert key value).2] ∧
    ((safeMap.InsertSys key value table [] 1).run [0, 0, 0, 0, 0]).returned 0 = true :=
  ⟨rfl, rfl, rfl⟩

/-- One `Add` running alone with one receive ready does what the sequential
`set.Add` does to the table, and its item is received. -/
theorem AddProg_alone {T : Type} (item : T) (table : GoMap Int T) :
    ((set.AddSys item table [] 1).run [0, 0, 0, 0, 0, 0, 0, 0]).data
      = ((⟨table, Chan.make 0⟩ : set T).Add item).1.data ∧
    ((set.AddSys item table [] 1).run [0, 0, 0, 0, 0, 0, 0, 0]).received
      = [((⟨table, Chan.make 0⟩ : set T).Add item).2] ∧
    ((set.AddSys item table [] 1).run [0, 0, 0, 0, 0, 0, 0, 0]).returned 0 = true := by
  simp [set.AddSys, set.AddProg, Sys.run, Sys.step, Sys.returned, set.Add, set.Size,
    Chan.make, Chan.drain, Chan.publish, Chan.len]

/-- Scheduled first, `Add` takes the exclusive lock in its fifth step. -/
theorem AddSys_takes_lock {T : Type} (item : T) (table : GoMap Int T)
    (others : List (Goroutine (GoMap Int T) T)) (recvs : Nat) :
    ((set.AddSys item table others recvs).run [0, 0, 0, 0, 0]).mutex.writer = some 0 := by
  simp [set.AddSys, set.AddProg, Sys.run, Sys.step]

/-- Scheduled alone with one receive ready, `Add` returns after eight steps. -/
theorem AddSys_returns {T : Type} (item : T) (table : GoMap Int T)
    (others : List (Goroutine (GoMap Int T) T)) :
    ((set.AddSys item table others 1).run [0, 0, 0, 0, 0, 0, 0, 0]).returned 0 = true := by
  simp [set.AddSys, set.AddProg, Sys.run, Sys.step, Sys.returned]

/-- C14 (counterexample): a goroutine calls `Alert()` while an `Insert` with
zero subscribers holds the exclusive lock, blocked in its send. `Alert()` takes
no lock: it returns, so not every other operation stays blocked. -/
theorem Alert_returns_while_Insert_blocks :
    ((safeMap.InsertSys (1 : Int) (2 : Int) KeyMap.empty [⟨AlertProg, 0⟩] 0).run
      [0, 0, 0]).mutex.writer = some 0 ∧
    ((safeMap.InsertSys (1 : Int) (2 : Int) KeyMap.empty [⟨AlertProg, 0⟩] 0).run
      [0, 0, 0, 0, 1]).mutex.writer = some 0 ∧
    ((safeMap.InsertSys (1 : Int) (2 : Int) KeyMap.empty [⟨AlertProg, 0⟩] 0).run
      [0, 0, 0, 0, 1]).returned 0 = false ∧
    ((safeMap.InsertSys (1 : Int) (2 : Int) KeyMap.empty [⟨AlertProg, 0⟩] 0).run
      [0, 0, 0, 0, 1]).returned 1 = true := by
  decide

/-- C14 (amended): `Insert` and `Add` send on the alert channel while holding
the exclusive lock. With zero subscribers the call (goroutine 0) never returns,
under every schedule and next to any other goroutines; the call does take the
lock when it runs first, and once it holds the lock it holds it forever after
while every goroutine that still has to acquire the mutex (any method other
than `Alert()`) never returns. With subscribers, the call returns only after
its item has been received, and it does return when one receive is ready. -/
theorem publish_blocks_until_received {K T : Type} [GoKey K] [Inhabited K] [Inhabited T]
    (key : K) (value : T) (table : KeyMap K T)
    (others : List (Goroutine (KeyMap K T) (alertMapValueFunc K T)))
    (item : T) (slots : GoMap Int T) (othersAdd : List (Goroutine (GoMap Int T) T))
    (sched sched2 : List Nat) (u recvs : Nat) :
    (((safeMap.InsertSys key value table others 0).run sched).returned 0 = false ∧
      (((safeMap.InsertSys key value table others 0).run sched).mutex.writer = some 0 →
        (((safeMap.InsertSys key value table others 0).run sched).run sched2).mutex.writer
          = some 0 ∧
        ((((safeMap.InsertSys key value table others 0).run sched).progOf u).any
            Instr.isAcquire = true →
          ((((safeMap.InsertSys key value table others 0).run sched).run sched2).progOf u).any
            Instr.isAcquire = true ∧
          (((safeMap.InsertSys key value table others 0).run sched).run sched2).returned u
            = false)) ∧
      ((safeMap.InsertSys key value table others 0).run [0, 0]).mutex.writer = some 0 ∧
      (((safeMap.InsertSys key value table others recvs).run sched).returned 0 = true →
        Insert.alertFunc key value
          ∈ ((safeMap.InsertSys key value table others recvs).run sched).received) ∧
      ((safeMap.InsertSys key value table others 1).run [0, 0, 0, 0, 0]).returned 0 = true) ∧
    (((set.AddSys item slots othersAdd 0).run sched).returned 0 = false ∧
      (((set.AddSys item slots othersAdd 0).run sched).mutex.writer = some 0 →
        (((set.AddSys item slots othersAdd 0).run sched).run sched2).mutex.writer = some 0 ∧
        ((((set.AddSys item slots othersAdd 0).run sched).progOf u).any
            Instr.isAcquire = true →
          ((((set.AddSys item slots othersAdd 0).run sched).run sched2).progOf u).any
            Instr.isAcquire = true ∧
          (((set.AddSys item slots othersAdd 0).run sched).run sched2).returned u = false)) ∧
      ((set.AddSys item slots othersAdd 0).run [0, 0, 0, 0, 0]).mutex.writer = some 0 ∧
      (((set.AddSys item slots othersAdd recvs).run sched).returned 0 = true →
        item ∈ ((set.AddSys item slots othersAdd recvs).run sched).received) ∧
      ((set.AddSys item slots othersAdd 1).run [0, 0, 0, 0, 0, 0, 0, 0]).returned 0 = true) := by
  constructor
  · have h := Sys.blocked_without_subscriber (safeMap.InsertSys key value table others 0) 0 u
      rfl rfl sched sched2
    exact ⟨h.1, h.2, rfl,
      Sys.returned_after_receive (safeMap.InsertSys key value table others recvs) 0
        (Insert.alertFunc key value) rfl sched, rfl⟩
  · have h := Sys.blocked_without_subscriber (set.AddSys item slots othersAdd 0) 0 u
      rfl rfl sched sched2
    exact ⟨h.1, h.2, AddSys_takes_lock item slots othersAdd 0,
      Sys.returned_after_receive (set.AddSys item slots othersAdd recvs) 0 item rfl sched,
      AddSys_returns item slots othersAdd⟩

/-- C20 (evaluation of the code): two goroutines call `Add(1)` and `Add(2)` on
a fresh set with two receives ready. Each runs `size := s.Size()` before either
takes the exclusive lock, so both read size 0 while the mutex is free; then
each in turn locks and writes slot 0. Both calls return and both items are
received, but the table is `{0: 2}`: the 1 is lost. -/
theorem concurrent_Add_same_slot :
    ((⟨∅, ⟨none, 0⟩, [⟨set.AddProg 1, 0⟩, ⟨set.AddProg 2, 0⟩], 2, []⟩ :
        Sys (GoMap Int Int) Int).run [0, 0, 0, 0, 1, 1, 1, 1]).threads.map
      (fun g => (g.loc, g.prog.length)) = [(0, 4), (0, 4)] ∧
    ((⟨∅, ⟨none, 0⟩, [⟨set.AddProg 1, 0⟩, ⟨set.AddProg 2, 0⟩], 2, []⟩ :
        Sys (GoMap Int Int) Int).run [0, 0, 0, 0, 1, 1, 1, 1]).mutex.writer = none ∧
    ((⟨∅, ⟨none, 0⟩, [⟨set.AddProg 1, 0⟩, ⟨set.AddProg 2, 0⟩], 2, []⟩ :
        Sys (GoMap Int Int) Int).run
      [0, 0, 0, 0, 1, 1, 1, 1, 0, 0, 0, 0, 1, 1, 1, 1]).returned 0 = true ∧
    ((⟨∅, ⟨none, 0⟩, [⟨set.AddProg 1, 0⟩, ⟨set.AddProg 2, 0⟩], 2, []⟩ :
        Sys (GoMap Int Int) Int).run
      [0, 0, 0, 0, 1, 1, 1, 1, 0, 0, 0, 0, 1, 1, 1, 1]).returned 1 = true ∧
    ((⟨∅, ⟨none, 0⟩, [⟨set.AddProg 1, 0⟩, ⟨set.AddProg 2, 0⟩], 2, []⟩ :
        Sys (GoMap Int Int) Int).run
      [0, 0, 0, 0, 1, 1, 1, 1, 0, 0, 0, 0, 1, 1, 1, 1]).received = [1, 2] ∧
    ((⟨∅, ⟨none, 0⟩, [⟨set.AddProg 1, 0⟩, ⟨set.AddProg 2, 0⟩], 2, []⟩ :
        Sys (GoMap Int Int) Int).run
      [0, 0, 0, 0, 1, 1, 1, 1, 0, 0, 0, 0, 1, 1, 1, 1]).data.entries = [⟨0, 2⟩] := by
  decide

end pksafe
